import Mathlib

/-!
Verification of the dpr process-orchestration core: dependency graph
(build, cycle detection, topological sort), the per-service process
supervisor state machine (ready detection, exit handling, the
SIGINT/SIGTERM/SIGKILL escalation ladder), and the orchestrator
(waiting services, pending autostart reconciliation, stop-all
coordination).  Shallow embedding of the TypeScript sources in
src/config/types.ts (dependencies module), the process-manager module,
and src/hooks/use-service-manager.ts.
-/

namespace Dpr

/-- Status values of a service, from the ServiceStatus union type. -/
inductive ServiceStatus
  | stopped
  | waiting
  | starting
  | ready
  | stopping
  | crashed
deriving DecidableEq, Repr

/-- Service configuration, from the ServiceConfig interface.
The readyPattern regex is represented by an optional compiled-pattern
test function (RegExp.test). -/
structure ServiceConfig where
  id : String
  name : String
  dir : String
  start : String
  stop : Option String
  autostart : Bool
  logs : Bool
  env : List (String × String)
  dependsOn : List String
  readyPattern : Option String
  readyDelay : Nat
  keepRunning : Bool

/-- Insertion into a JS Set backed by an insertion-ordered list:
appends the element if it is not already present. -/
def jsSetAdd (l : List String) (x : String) : List String :=
  if x ∈ l then l else l ++ [x]

/-- Contents of the JS Set built from a list (new Set(list)): the list
with duplicates removed, keeping first occurrences in order. -/
def jsSetList (l : List String) : List String :=
  l.foldl jsSetAdd []

/-- JS Map.set semantics on an insertion-ordered association list:
overwrite in place if the key exists, append otherwise. -/
def jsMapSet {α : Type} (m : List (String × α)) (k : String) (v : α) :
    List (String × α) :=
  if m.any (fun p => p.1 == k) then
    m.map (fun p => if p.1 == k then (k, v) else p)
  else
    m ++ [(k, v)]

/-- JS Map built from a list of key-value pairs (new Map(pairs)). -/
def jsMapOfList {α : Type} (l : List (String × α)) : List (String × α) :=
  l.foldl (fun m p => jsMapSet m p.1 p.2) []

/-- JS Map.get: the value stored at the key, if any. -/
def jsMapGet {α : Type} (m : List (String × α)) (k : String) : Option α :=
  (m.find? (fun p => p.1 == k)).map Prod.snd

/-- Dependency graph, from the DependencyGraph interface: node set and,
for every node, the set of its declared dependency ids. -/
structure DependencyGraph where
  nodes : List String
  edges : List (String × List String)

/-- Embedding of buildDependencyGraph: nodes are the service ids, the
edge set of a service is its dependsOn list. -/
def buildDependencyGraph (services : List ServiceConfig) : DependencyGraph :=
  { nodes := jsSetList (services.map (fun s => s.id))
    edges := services.foldl (fun m s => jsMapSet m s.id (jsSetList s.dependsOn)) [] }

/-- Dependency ids of a node: graph.edges.get(nodeId), empty when the
node has no entry (the source skips the loop when get is undefined). -/
def depsOf (g : DependencyGraph) (v : String) : List String :=
  (jsMapGet g.edges v).getD []

/-- Mutable state threaded through the detectCircularDependencies DFS:
the visited set, the recursion stack, and the current path. -/
structure DetectState where
  visited : List String
  recursionStack : List String
  path : List String

/-- Cycle extraction at a back edge, from the source lines
const cycleStart = path.indexOf(dep); return [...path.slice(cycleStart), dep]. -/
def extractCycle (path : List String) (dep : String) : List String :=
  path.dropWhile (fun y => y ≠ dep) ++ [dep]

mutual

/-- Embedding of the recursive dfs function inside
detectCircularDependencies, for one node: mark it visited, push it on
the recursion stack and path, explore its dependencies, then pop.
Recursion is fuel-bounded; the callers supply enough fuel for the fuel
to never run out (each nested call visits a previously unvisited node). -/
def ddfs (g : DependencyGraph) :
    Nat → String → DetectState → Option (List String) × DetectState
  | 0, _, s => (none, s)
  | fuel + 1, n, s =>
    let s1 : DetectState :=
      { visited := jsSetAdd s.visited n
        recursionStack := jsSetAdd s.recursionStack n
        path := s.path ++ [n] }
    match ddfsVisit g fuel (depsOf g n) s1 with
    | (some c, s2) => (some c, s2)
    | (none, s2) =>
      (none,
        { visited := s2.visited
          recursionStack := s2.recursionStack.filter (fun y => y ≠ n)
          path := s2.path.dropLast })
termination_by fuel _ _ => (fuel, 0)

/-- Embedding of the for-loop over the dependency set inside dfs:
recurse into unvisited dependencies, report a cycle on a back edge to
a node on the recursion stack, skip finished nodes. -/
def ddfsVisit (g : DependencyGraph) :
    Nat → List String → DetectState → Option (List String) × DetectState
  | _, [], s => (none, s)
  | fuel, d :: ds, s =>
    if d ∈ s.visited then
      if d ∈ s.recursionStack then
        (some (extractCycle s.path d), s)
      else
        ddfsVisit g fuel ds s
    else
      match ddfs g fuel d s with
      | (some c, s2) => (some c, s2)
      | (none, s2) => ddfsVisit g fuel ds s2
termination_by fuel ds _ => (fuel, ds.length + 1)

end

/-- Outer loop of detectCircularDependencies over graph.nodes: run the
DFS from every not-yet-visited node. -/
def detectLoop (g : DependencyGraph) :
    List String → DetectState → Option (List String)
  | [], _ => none
  | n :: rest, s =>
    if n ∈ s.visited then
      detectLoop g rest s
    else
      match ddfs g (g.nodes.length) n s with
      | (some c, _) => some c
      | (none, s2) => detectLoop g rest s2

/-- Embedding of detectCircularDependencies: DFS with a recursion stack
over the nodes in input order, returning the first cycle found or none. -/
def detectCircularDependencies (g : DependencyGraph) : Option (List String) :=
  detectLoop g g.nodes { visited := [], recursionStack := [], path := [] }

/-- State threaded through the visit function of topologicalSort:
the visited set and the output list under construction. -/
structure VisitState where
  visited : List String
  result : List ServiceConfig

mutual

/-- Embedding of the recursive visit function inside topologicalSort:
skip visited nodes, otherwise mark, visit all dependencies, then append
the service config of the node to the result (post-order). -/
def tvisit (g : DependencyGraph) (smap : List (String × ServiceConfig)) :
    Nat → String → VisitState → VisitState
  | 0, _, s => s
  | fuel + 1, n, s =>
    if n ∈ s.visited then s
    else
      let s1 : VisitState := { s with visited := jsSetAdd s.visited n }
      let s2 := tvisitList g smap fuel (depsOf g n) s1
      match jsMapGet smap n with
      | some cfg => { s2 with result := s2.result ++ [cfg] }
      | none => s2
termination_by fuel _ _ => (fuel, 0)

/-- Iteration of visit over a list of node ids (the dependency loop of
visit, and also the outer loop of topologicalSort over graph.nodes). -/
def tvisitList (g : DependencyGraph) (smap : List (String × ServiceConfig)) :
    Nat → List String → VisitState → VisitState
  | _, [], s => s
  | fuel, d :: ds, s => tvisitList g smap fuel ds (tvisit g smap fuel d s)
termination_by fuel ds _ => (fuel, ds.length + 1)

end

/-- Embedding of topologicalSort: detect cycles first and fail with the
discovered cycle (the CircularDependencyError path), otherwise produce
the post-order DFS ordering of the service configs. -/
def topologicalSort (services : List ServiceConfig) :
    Except (List String) (List ServiceConfig) :=
  let graph := buildDependencyGraph services
  match detectCircularDependencies graph with
  | some cycle => Except.error cycle
  | none =>
    let smap := jsMapOfList (services.map (fun s => (s.id, s)))
    Except.ok
      (tvisitList graph smap (graph.nodes.length + 1) graph.nodes
        { visited := [], result := [] }).result

/-- Transitive dependency relation generated by the graph edges:
DependsOn g v w holds when a nonempty chain of declared dependencies
leads from v to w. -/
inductive DependsOn (g : DependencyGraph) : String → String → Prop
  | direct {v d : String} : d ∈ depsOf g v → DependsOn g v d
  | step {v d w : String} : d ∈ depsOf g v → DependsOn g d w → DependsOn g v w

/-- Acyclicity of a dependency graph: no node transitively depends on
itself. -/
def Acyclic (g : DependencyGraph) : Prop :=
  ∀ v : String, ¬ DependsOn g v v

/-- Well-formedness of a dependency graph, guaranteed upstream by config
validation: every edge-map key and every dependency target is a node. -/
def WFGraph (g : DependencyGraph) : Prop :=
  ∀ p ∈ g.edges, p.1 ∈ g.nodes ∧ ∀ d ∈ p.2, d ∈ g.nodes

instance (g : DependencyGraph) : Decidable (WFGraph g) := by
  unfold WFGraph; infer_instance

/-! Basic lemmas about the JS Set and Map embeddings. -/

theorem mem_jsSetAdd {l : List String} {x y : String} :
    x ∈ jsSetAdd l y ↔ x ∈ l ∨ x = y := by
  by_cases h : y ∈ l
  · simp only [jsSetAdd, if_pos h]
    exact ⟨Or.inl, fun hx => hx.elim id (fun he => he ▸ h)⟩
  · simp [jsSetAdd, if_neg h]

theorem subset_jsSetAdd (l : List String) (y : String) : l ⊆ jsSetAdd l y := by
  intro x hx; exact mem_jsSetAdd.mpr (Or.inl hx)

theorem self_mem_jsSetAdd (l : List String) (y : String) : y ∈ jsSetAdd l y :=
  mem_jsSetAdd.mpr (Or.inr rfl)

theorem jsSetAdd_eq_of_not_mem {l : List String} {y : String} (h : y ∉ l) :
    jsSetAdd l y = l ++ [y] := by
  unfold jsSetAdd; simp [h]

theorem mem_jsSetList_aux (l acc : List String) (x : String) :
    x ∈ l.foldl jsSetAdd acc ↔ x ∈ acc ∨ x ∈ l := by
  induction l generalizing acc with
  | nil => simp
  | cons a as ih =>
    simp only [List.foldl_cons, ih, mem_jsSetAdd, List.mem_cons]
    tauto

theorem mem_jsSetList {l : List String} {x : String} :
    x ∈ jsSetList l ↔ x ∈ l := by
  unfold jsSetList
  simp [mem_jsSetList_aux]

theorem nodup_jsSetList_aux (l acc : List String) (h : acc.Nodup) :
    (l.foldl jsSetAdd acc).Nodup := by
  induction l generalizing acc with
  | nil => simpa
  | cons a as ih =>
    simp only [List.foldl_cons]
    apply ih
    unfold jsSetAdd
    split
    · exact h
    · rename_i ha
      simp [List.nodup_append, h, ha]

theorem nodup_jsSetList (l : List String) : (jsSetList l).Nodup :=
  nodup_jsSetList_aux l [] List.nodup_nil

theorem jsSetList_foldl_eq :
    ∀ (l acc : List String), l.Nodup → (∀ x ∈ l, x ∉ acc) →
      l.foldl jsSetAdd acc = acc ++ l := by
  intro l
  induction l with
  | nil => intro acc _ _; simp
  | cons a as ih =>
    intro acc h hd
    simp only [List.foldl_cons]
    rw [jsSetAdd_eq_of_not_mem (hd a (by simp))]
    rw [ih (acc ++ [a]) (List.Nodup.of_cons h) ?_]
    · simp
    · intro x hx
      simp only [List.mem_append, List.mem_singleton]
      rintro (hxa | rfl)
      · exact hd x (by simp [hx]) hxa
      · exact (List.nodup_cons.mp h).1 hx

theorem jsSetList_eq_of_nodup {l : List String} (h : l.Nodup) :
    jsSetList l = l := by
  unfold jsSetList
  simpa using jsSetList_foldl_eq l [] h (by simp)

/-! Lemmas on dependency chains and the transitive DependsOn relation. -/

theorem DependsOn.trans {g : DependencyGraph} {a b c : String}
    (h1 : DependsOn g a b) (h2 : DependsOn g b c) : DependsOn g a c := by
  induction h1 with
  | direct hd => exact DependsOn.step hd h2
  | step hd _ ih => exact DependsOn.step hd (ih h2)

/-- Shorthand for the edge relation used in DFS path chains: the second
node is a declared dependency of the first. -/
def DepEdge (g : DependencyGraph) (a b : String) : Prop := b ∈ depsOf g a

theorem chain_member_to_last {g : DependencyGraph} {l : List String} {d z : String}
    (hchain : List.Chain' (DepEdge g) l) (hd : d ∈ l) (hz : l.getLast? = some z) :
    d = z ∨ DependsOn g d z := by
  induction l generalizing d with
  | nil => simp at hd
  | cons a as ih =>
    cases as with
    | nil =>
      simp only [List.getLast?_singleton, Option.some_inj] at hz
      simp only [List.mem_singleton] at hd
      exact Or.inl (hd.trans hz)
    | cons b bs =>
      have hz' : (b :: bs).getLast? = some z := by
        rw [List.getLast?_cons_cons] at hz; exact hz
      rcases List.mem_cons.mp hd with rfl | hmem
      · have hedge : DepEdge g d b := (List.chain'_cons.mp hchain).1
        rcases @ih b (List.chain'_cons.mp hchain).2 (List.mem_cons_self b bs) hz' with heq | hdep
        · exact Or.inr (heq ▸ DependsOn.direct hedge)
        · exact Or.inr (DependsOn.trans (DependsOn.direct hedge) hdep)
      · exact ih (List.chain'_cons.mp hchain).2 hmem hz'

/-- Back edge from the last path node to a node already on the path
yields a self-reachable node, hence a cycle. -/
theorem back_edge_cycle {g : DependencyGraph} {path : List String} {d z : String}
    (hchain : List.Chain' (DepEdge g) path) (hd : d ∈ path)
    (hz : path.getLast? = some z) (hedge : d ∈ depsOf g z) :
    ∃ v : String, DependsOn g v v := by
  rcases chain_member_to_last hchain hd hz with rfl | hdep
  · exact ⟨d, DependsOn.direct hedge⟩
  · exact ⟨d, DependsOn.trans hdep (DependsOn.direct hedge)⟩

/-! Soundness of the cycle-detection DFS: a reported cycle is real. -/

/-- Invariant of the detect DFS state: the recursion stack and the path
hold the same nodes, the path is a dependency chain, and the stack only
holds visited nodes. -/
def SInv (g : DependencyGraph) (s : DetectState) : Prop :=
  (∀ x, x ∈ s.recursionStack ↔ x ∈ s.path) ∧
  List.Chain' (DepEdge g) s.path ∧
  s.recursionStack ⊆ s.visited

/-- Soundness induction statement for ddfs at a given fuel. -/
def DdfsSoundP (g : DependencyGraph) (fuel : Nat) : Prop :=
  ∀ n s, SInv g s → n ∉ s.visited →
    (∀ z, s.path.getLast? = some z → n ∈ depsOf g z) →
    (∀ c s2, ddfs g fuel n s = (some c, s2) → ∃ v, DependsOn g v v) ∧
    (∀ s2, ddfs g fuel n s = (none, s2) →
      SInv g s2 ∧ s2.path = s.path ∧ s2.recursionStack = s.recursionStack ∧
      s.visited ⊆ s2.visited)

/-- Soundness induction statement for ddfsVisit at a given fuel. -/
def DdfsSoundQ (g : DependencyGraph) (fuel : Nat) : Prop :=
  ∀ ds s, SInv g s → s.path ≠ [] →
    (∀ z, s.path.getLast? = some z → ∀ d ∈ ds, d ∈ depsOf g z) →
    (∀ c s2, ddfsVisit g fuel ds s = (some c, s2) → ∃ v, DependsOn g v v) ∧
    (∀ s2, ddfsVisit g fuel ds s = (none, s2) →
      SInv g s2 ∧ s2.path = s.path ∧ s2.recursionStack = s.recursionStack ∧
      s.visited ⊆ s2.visited)

theorem ddfsVisit_sound_of {g : DependencyGraph} {fuel : Nat}
    (hP : DdfsSoundP g fuel) : DdfsSoundQ g fuel := by
  intro ds
  induction ds with
  | nil =>
    intro s hinv _ _
    constructor
    · intro c s2 h
      simp [ddfsVisit] at h
    · intro s2 h
      simp only [ddfsVisit, Prod.mk.injEq] at h
      exact h.2 ▸ ⟨hinv, rfl, rfl, fun _ hx => hx⟩
  | cons d ds ih =>
    intro s hinv hpne hpre
    obtain ⟨z, hz⟩ : ∃ z, s.path.getLast? = some z :=
      ⟨s.path.getLast hpne, List.getLast?_eq_getLast s.path hpne⟩
    by_cases hvis : d ∈ s.visited
    · by_cases hstk : d ∈ s.recursionStack
      · constructor
        · intro c s2 _
          exact back_edge_cycle hinv.2.1 ((hinv.1 d).mp hstk) hz
            (hpre z hz d (List.mem_cons_self d ds))
        · intro s2 h
          simp only [ddfsVisit, if_pos hvis, if_pos hstk, Prod.mk.injEq] at h
          exact absurd h.1 (by simp)
      · have heq : ddfsVisit g fuel (d :: ds) s = ddfsVisit g fuel ds s := by
          simp only [ddfsVisit, if_pos hvis, if_neg hstk]
        rw [heq]
        exact ih s hinv hpne (fun z hz d hd => hpre z hz d (List.mem_cons_of_mem _ hd))
    · have hcall := hP d s hinv hvis
        (fun z hz => hpre z hz d (List.mem_cons_self d ds))
      rcases hd2 : ddfs g fuel d s with ⟨res, s2⟩
      have heq : ddfsVisit g fuel (d :: ds) s =
          match ddfs g fuel d s with
          | (some c, s2) => (some c, s2)
          | (none, s2) => ddfsVisit g fuel ds s2 := by
        simp only [ddfsVisit, if_neg hvis]
      cases res with
      | some c =>
        constructor
        · intro c2 s3 _
          exact hcall.1 c s2 hd2
        · intro s3 h
          rw [heq, hd2] at h
          exact absurd (congrArg Prod.fst h) (by simp)
      | none =>
        have hpost := hcall.2 s2 hd2
        have hrec := ih s2 hpost.1 (hpost.2.1 ▸ hpne)
          (fun z hz2 d' hd' => hpre z (hpost.2.1 ▸ hz2) d' (List.mem_cons_of_mem _ hd'))
        rw [heq, hd2]
        constructor
        · intro c s3 h
          exact hrec.1 c s3 h
        · intro s3 h
          obtain ⟨hi3, hp3, hs3, hv3⟩ := hrec.2 s3 h
          exact ⟨hi3, hp3.trans hpost.2.1, hs3.trans hpost.2.2.1,
            List.Subset.trans hpost.2.2.2 hv3⟩

theorem ddfs_sound_zero (g : DependencyGraph) : DdfsSoundP g 0 := by
  intro n s hinv _ _
  constructor
  · intro c s2 h
    simp [ddfs] at h
  · intro s2 h
    simp only [ddfs, Prod.mk.injEq] at h
    exact h.2 ▸ ⟨hinv, rfl, rfl, fun _ hx => hx⟩

theorem ddfs_sound_succ {g : DependencyGraph} {fuel : Nat}
    (hQ : DdfsSoundQ g fuel) : DdfsSoundP g (fuel + 1) := by
  intro n s hinv hnv hlast
  set s1 : DetectState :=
    { visited := jsSetAdd s.visited n
      recursionStack := jsSetAdd s.recursionStack n
      path := s.path ++ [n] } with hs1
  have hinv1 : SInv g s1 := by
    refine ⟨?_, ?_, ?_⟩
    · intro x
      simp only [hs1, mem_jsSetAdd, List.mem_append, List.mem_singleton]
      exact or_congr_left (hinv.1 x)
    · simp only [hs1]
      rw [List.chain'_append]
      refine ⟨hinv.2.1, List.chain'_singleton n, ?_⟩
      intro x hx y hy
      simp only [List.head?_cons, Option.mem_def, Option.some_inj] at hy
      exact hy ▸ hlast x hx
    · intro x hx
      simp only [hs1, mem_jsSetAdd] at hx ⊢
      exact hx.imp (fun h => hinv.2.2 h) id
  have hpne1 : s1.path ≠ [] := by simp [hs1]
  have hpre1 : ∀ z, s1.path.getLast? = some z → ∀ d ∈ depsOf g n, d ∈ depsOf g z := by
    intro z hz d hd
    simp only [hs1, List.getLast?_concat, Option.some_inj] at hz
    exact hz ▸ hd
  have hcall := hQ (depsOf g n) s1 hinv1 hpne1 hpre1
  have hnstk : n ∉ s.recursionStack := fun h => hnv (hinv.2.2 h)
  rcases hv : ddfsVisit g fuel (depsOf g n) s1 with ⟨res, s2⟩
  cases res with
  | some c =>
    have heq2 : ddfs g (fuel + 1) n s = (some c, s2) := by
      simp only [ddfs]
      rw [← hs1, hv]
    constructor
    · intro c2 s3 _
      exact hcall.1 c s2 hv
    · intro s3 h
      rw [heq2] at h
      exact absurd (congrArg Prod.fst h) (by simp)
  | none =>
    set s3 : DetectState :=
      { visited := s2.visited
        recursionStack := s2.recursionStack.filter (fun y => y ≠ n)
        path := s2.path.dropLast } with hs3def
    have heq2 : ddfs g (fuel + 1) n s = (none, s3) := by
      simp only [ddfs]
      rw [← hs1, hv]
    obtain ⟨hi2, hp2, hs2, hv2⟩ := hcall.2 s2 hv
    constructor
    · intro c s4 h
      rw [heq2] at h
      exact absurd (congrArg Prod.fst h) (by simp)
    · intro s4 h
      rw [heq2] at h
      obtain rfl : s3 = s4 := ((Prod.mk.injEq _ _ _ _).mp h).2
      have hstkeq : s3.recursionStack = s.recursionStack := by
        rw [hs3def]
        simp only [hs2, hs1]
        rw [jsSetAdd_eq_of_not_mem hnstk, List.filter_append]
        have h1 : s.recursionStack.filter (fun y => y ≠ n) = s.recursionStack :=
          List.filter_eq_self.mpr (fun a ha => by
            simp only [ne_eq, decide_not, Bool.not_eq_true']
            exact decide_eq_false (fun he => hnstk (he ▸ ha)))
        have h2 : List.filter (fun y => decide (y ≠ n)) [n] = [] := by simp
        rw [h1, h2, List.append_nil]
      have hpatheq : s3.path = s.path := by
        rw [hs3def]
        simp only [hp2, hs1]
        exact List.dropLast_concat
      have hvgrow : s.visited ⊆ s3.visited :=
        List.Subset.trans (subset_jsSetAdd s.visited n) hv2
      refine ⟨⟨?_, ?_, ?_⟩, hpatheq, hstkeq, hvgrow⟩
      · intro x
        rw [hstkeq, hpatheq]
        exact hinv.1 x
      · rw [hpatheq]
        exact hinv.2.1
      · intro x hx
        rw [hstkeq] at hx
        exact hvgrow (hinv.2.2 hx)

theorem ddfs_sound_all (g : DependencyGraph) :
    ∀ fuel, DdfsSoundP g fuel ∧ DdfsSoundQ g fuel := by
  intro fuel
  induction fuel with
  | zero =>
    exact ⟨ddfs_sound_zero g, ddfsVisit_sound_of (ddfs_sound_zero g)⟩
  | succ f ih =>
    have hP := ddfs_sound_succ ih.2
    exact ⟨hP, ddfsVisit_sound_of hP⟩

theorem detectLoop_sound {g : DependencyGraph} {c : List String} :
    ∀ (nodes : List String) (s : DetectState), SInv g s → s.path = [] →
      detectLoop g nodes s = some c → ∃ v, DependsOn g v v := by
  intro nodes
  induction nodes with
  | nil => intro s _ _ h; simp [detectLoop] at h
  | cons n rest ih =>
    intro s hinv hpe h
    by_cases hvis : n ∈ s.visited
    · rw [detectLoop, if_pos hvis] at h
      exact ih s hinv hpe h
    · rw [detectLoop, if_neg hvis] at h
      have hcall := (ddfs_sound_all g g.nodes.length).1 n s hinv hvis
        (fun z hz => by rw [hpe] at hz; simp at hz)
      rcases hd : ddfs g g.nodes.length n s with ⟨res, s2⟩
      cases res with
      | some c2 => exact hcall.1 c2 s2 hd
      | none =>
        rw [hd] at h
        obtain ⟨hi2, hp2, _, _⟩ := hcall.2 s2 hd
        exact ih s2 hi2 (hp2.trans hpe) h

/-- Soundness of detectCircularDependencies: when it reports a cycle,
some node really does transitively depend on itself. -/
theorem detect_some_not_acyclic {g : DependencyGraph} {c : List String}
    (h : detectCircularDependencies g = some c) : ∃ v, DependsOn g v v :=
  detectLoop_sound g.nodes _ ⟨by simp, List.chain'_nil, by simp⟩ rfl h

/-- Acyclic graphs are never reported as cyclic. -/
theorem detect_none_of_acyclic {g : DependencyGraph} (h : Acyclic g) :
    detectCircularDependencies g = none := by
  rcases hd : detectCircularDependencies g with _ | c
  · rfl
  · obtain ⟨v, hv⟩ := detect_some_not_acyclic hd
    exact absurd hv (h v)

/-! Completeness of the cycle-detection DFS: if no cycle is reported the
graph is acyclic.  The DFS maintains a finish order in which every
finished node has all its dependencies finished strictly earlier. -/

/-- Finish-order predicate: walking the list left to right, each node
has all of its dependencies in the accumulated set of already-finished
nodes. -/
def FinOrder (g : DependencyGraph) : List String → List String → Prop
  | _, [] => True
  | done, v :: rest =>
    (∀ d ∈ depsOf g v, d ∈ done) ∧ FinOrder g (v :: done) rest

theorem finOrder_append_one {g : DependencyGraph} {v : String} :
    ∀ (fin done : List String), FinOrder g done fin →
      (∀ d ∈ depsOf g v, d ∈ done ∨ d ∈ fin) →
      FinOrder g done (fin ++ [v]) := by
  intro fin
  induction fin with
  | nil =>
    intro done _ hv
    refine ⟨fun d hd => ?_, trivial⟩
    rcases hv d hd with h | h
    · exact h
    · simp at h
  | cons w rest ih =>
    intro done hfo hv
    refine ⟨hfo.1, ih (w :: done) hfo.2 (fun d hd => ?_)⟩
    rcases hv d hd with h | h
    · exact Or.inl (List.mem_cons_of_mem _ h)
    · rcases List.mem_cons.mp h with rfl | h2
      · exact Or.inl (List.mem_cons_self _ _)
      · exact Or.inr h2

theorem finOrder_no_self {g : DependencyGraph} :
    ∀ (fin done : List String), FinOrder g done fin →
      (∀ x ∈ done, ∀ y, DependsOn g x y → y ∈ done) →
      (∀ x ∈ done, ¬ DependsOn g x x) →
      ∀ x, (x ∈ fin ∨ x ∈ done) → ¬ DependsOn g x x := by
  intro fin
  induction fin with
  | nil =>
    intro done _ _ hself x hx
    rcases hx with h | h
    · simp at h
    · exact hself x h
  | cons v rest ih =>
    intro done hfo hclosed hself
    have hreach : ∀ y, DependsOn g v y → y ∈ done := by
      intro y hy
      induction hy with
      | direct hd => exact hfo.1 _ hd
      | step hd hrest ihy =>
        exact hclosed _ (hfo.1 _ hd) _ hrest
    have hclosed2 : ∀ x ∈ v :: done, ∀ y, DependsOn g x y → y ∈ v :: done := by
      intro x hx y hy
      rcases List.mem_cons.mp hx with rfl | hx2
      · exact List.mem_cons_of_mem _ (hreach y hy)
      · exact List.mem_cons_of_mem _ (hclosed x hx2 y hy)
    have hself2 : ∀ x ∈ v :: done, ¬ DependsOn g x x := by
      intro x hx hdep
      rcases List.mem_cons.mp hx with rfl | hx2
      · have hxdone : x ∈ done := hreach x hdep
        exact hself x hxdone hdep
      · exact hself x hx2 hdep
    intro x hx
    rcases hx with hx | hx
    · rcases List.mem_cons.mp hx with rfl | hx2
      · exact hself2 x (List.mem_cons_self _ _)
      · exact ih (v :: done) hfo.2 hclosed2 hself2 x (Or.inl hx2)
    · exact ih (v :: done) hfo.2 hclosed2 hself2 x (Or.inr (List.mem_cons_of_mem _ hx))

/-- Count of graph nodes not yet visited; the DFS fuel budget. -/
def cu (g : DependencyGraph) (s : DetectState) : Nat :=
  (g.nodes.filter (fun x => x ∉ s.visited)).length

theorem length_filter_mono {p q : String → Bool}
    (h : ∀ x, p x = true → q x = true) :
    ∀ l : List String, (l.filter p).length ≤ (l.filter q).length := by
  intro l
  induction l with
  | nil => simp
  | cons a as ih =>
    rw [List.filter_cons, List.filter_cons]
    by_cases hp : p a = true
    · rw [if_pos hp, if_pos (h a hp)]
      simpa using ih
    · rw [if_neg hp]
      by_cases hq : q a = true
      · rw [if_pos hq]
        exact le_trans ih (by simp)
      · rw [if_neg hq]
        exact ih

theorem length_filter_lt {p q : String → Bool} {a : String}
    (hmono : ∀ x, p x = true → q x = true) :
    ∀ l : List String, a ∈ l → q a = true → p a = false →
      (l.filter p).length < (l.filter q).length := by
  intro l
  induction l with
  | nil => intro h; simp at h
  | cons b bs ih =>
    intro hmem hq hp
    rw [List.filter_cons, List.filter_cons]
    rcases List.mem_cons.mp hmem with rfl | hmem2
    · rw [if_neg (by simp [hp]), if_pos hq]
      exact Nat.lt_succ_of_le (length_filter_mono hmono bs)
    · have hlt := ih hmem2 hq hp
      by_cases hpb : p b = true
      · rw [if_pos hpb, if_pos (hmono b hpb)]
        simpa using hlt
      · rw [if_neg hpb]
        by_cases hqb : q b = true
        · rw [if_pos hqb]
          exact Nat.lt_succ_of_lt hlt
        · rw [if_neg hqb]
          exact hlt

theorem cu_mono {g : DependencyGraph} {s s2 : DetectState}
    (h : s.visited ⊆ s2.visited) : cu g s2 ≤ cu g s := by
  unfold cu
  apply length_filter_mono
  intro x hx
  simp only [decide_eq_true_eq] at hx ⊢
  exact fun hmem => hx (h hmem)

theorem cu_lt_of_new {g : DependencyGraph} {s s2 : DetectState} {n : String}
    (hsub : s.visited ⊆ s2.visited) (hn : n ∈ g.nodes) (hnv : n ∉ s.visited)
    (hn2 : n ∈ s2.visited) : cu g s2 < cu g s := by
  unfold cu
  apply length_filter_lt ?_ g.nodes hn (by simp [hnv]) (by simp [hn2])
  intro x hx
  simp only [decide_eq_true_eq] at hx ⊢
  exact fun hmem => hx (hsub hmem)

/-- The key dependency-closure fact from well-formedness: both endpoints
of a dependency edge are graph nodes. -/
theorem mem_nodes_of_dep {g : DependencyGraph} (hwf : WFGraph g) {v d : String}
    (hd : d ∈ depsOf g v) : v ∈ g.nodes ∧ d ∈ g.nodes := by
  unfold depsOf jsMapGet at hd
  rcases hf : g.edges.find? (fun p => p.1 == v) with _ | p
  · rw [hf] at hd; simp at hd
  · rw [hf] at hd
    simp only [Option.map_some', Option.getD_some] at hd
    have hpmem := List.mem_of_find?_eq_some hf
    have hpeq : p.1 = v := by
      have := List.find?_some hf
      simpa using this
    obtain ⟨h1, h2⟩ := hwf p hpmem
    exact ⟨hpeq ▸ h1, h2 d hd⟩

/-- Finish-set invariant of the completeness argument: some finish order
lists exactly the visited nodes that are off the recursion stack. -/
def DInv (g : DependencyGraph) (s : DetectState) : Prop :=
  ∃ fin, FinOrder g [] fin ∧
    ∀ x, x ∈ fin ↔ (x ∈ s.visited ∧ x ∉ s.recursionStack)

/-- Completeness induction statement for ddfs at a given fuel. -/
def DdfsCompP (g : DependencyGraph) (fuel : Nat) : Prop :=
  ∀ n s, n ∈ g.nodes → n ∉ s.visited →
    s.recursionStack ⊆ s.visited → DInv g s → cu g s ≤ fuel →
    ∀ s2, ddfs g fuel n s = (none, s2) →
      s2.recursionStack = s.recursionStack ∧ s2.path = s.path ∧
      s.visited ⊆ s2.visited ∧ n ∈ s2.visited ∧ DInv g s2

/-- Completeness induction statement for ddfsVisit at a given fuel. -/
def DdfsCompQ (g : DependencyGraph) (fuel : Nat) : Prop :=
  ∀ ds s, (∀ d ∈ ds, d ∈ g.nodes) →
    s.recursionStack ⊆ s.visited → DInv g s → cu g s ≤ fuel →
    ∀ s2, ddfsVisit g fuel ds s = (none, s2) →
      s2.recursionStack = s.recursionStack ∧ s2.path = s.path ∧
      s.visited ⊆ s2.visited ∧
      (∀ d ∈ ds, d ∈ s2.visited ∧ d ∉ s2.recursionStack) ∧ DInv g s2

theorem ddfs_comp_zero (g : DependencyGraph) : DdfsCompP g 0 := by
  intro n s hn hnv _ _ hcu s2 _
  exfalso
  have hmem : n ∈ g.nodes.filter (fun x => x ∉ s.visited) :=
    List.mem_filter.mpr ⟨hn, by simp [hnv]⟩
  have hpos : 0 < cu g s := by
    unfold cu
    exact List.length_pos.mpr (List.ne_nil_of_mem hmem)
  omega

theorem ddfsVisit_comp_of {g : DependencyGraph} {fuel : Nat}
    (hP : DdfsCompP g fuel) : DdfsCompQ g fuel := by
  intro ds
  induction ds with
  | nil =>
    intro s _ _ hdinv _ s2 h
    simp only [ddfsVisit, Prod.mk.injEq] at h
    exact h.2 ▸ ⟨rfl, rfl, fun _ hx => hx, by simp, hdinv⟩
  | cons d ds ih =>
    intro s hnds hstk hdinv hcu s2 h
    by_cases hvis : d ∈ s.visited
    · by_cases hstk2 : d ∈ s.recursionStack
      · have heq : ddfsVisit g fuel (d :: ds) s =
            (some (extractCycle s.path d), s) := by
          simp only [ddfsVisit, if_pos hvis, if_pos hstk2]
        rw [heq] at h
        exact absurd (congrArg Prod.fst h) (by simp)
      · have heq : ddfsVisit g fuel (d :: ds) s = ddfsVisit g fuel ds s := by
          simp only [ddfsVisit, if_pos hvis, if_neg hstk2]
        rw [heq] at h
        obtain ⟨h1, h2, h3, h4, h5⟩ := ih s
          (fun x hx => hnds x (List.mem_cons_of_mem _ hx)) hstk hdinv hcu s2 h
        refine ⟨h1, h2, h3, fun x hx => ?_, h5⟩
        rcases List.mem_cons.mp hx with rfl | hx2
        · exact ⟨h3 hvis, h1 ▸ hstk2⟩
        · exact h4 x hx2
    · rcases hd2 : ddfs g fuel d s with ⟨res, s3⟩
      cases res with
      | some c =>
        have heq : ddfsVisit g fuel (d :: ds) s = (some c, s3) := by
          simp only [ddfsVisit, if_neg hvis]
          rw [hd2]
        rw [heq] at h
        exact absurd (congrArg Prod.fst h) (by simp)
      | none =>
        have heq : ddfsVisit g fuel (d :: ds) s = ddfsVisit g fuel ds s3 := by
          simp only [ddfsVisit, if_neg hvis]
          rw [hd2]
        rw [heq] at h
        obtain ⟨hstk3, hpath3, hvis3, hd3, hdinv3⟩ :=
          hP d s (hnds d (List.mem_cons_self d ds)) hvis hstk hdinv hcu s3 hd2
        have hstksub3 : s3.recursionStack ⊆ s3.visited := by
          rw [hstk3]
          exact fun x hx => hvis3 (hstk hx)
        obtain ⟨h1, h2, h3, h4, h5⟩ := ih s3
          (fun x hx => hnds x (List.mem_cons_of_mem _ hx)) hstksub3 hdinv3
          (le_trans (cu_mono hvis3) hcu) s2 h
        refine ⟨h1.trans hstk3, h2.trans hpath3, List.Subset.trans hvis3 h3,
          fun x hx => ?_, h5⟩
        rcases List.mem_cons.mp hx with rfl | hx2
        · refine ⟨h3 hd3, ?_⟩
          rw [h1, hstk3]
          exact fun hmem => hvis (hstk hmem)
        · exact h4 x hx2

theorem ddfs_comp_succ {g : DependencyGraph} {fuel : Nat} (hwf : WFGraph g)
    (hQ : DdfsCompQ g fuel) : DdfsCompP g (fuel + 1) := by
  intro n s hn hnv hstk hdinv hcu s2 h
  set s1 : DetectState :=
    { visited := jsSetAdd s.visited n
      recursionStack := jsSetAdd s.recursionStack n
      path := s.path ++ [n] } with hs1
  have hnstk : n ∉ s.recursionStack := fun hm => hnv (hstk hm)
  have hstk1 : s1.recursionStack ⊆ s1.visited := by
    intro x hx
    simp only [hs1, mem_jsSetAdd] at hx ⊢
    exact hx.imp (fun hm => hstk hm) id
  have hdinv1 : DInv g s1 := by
    obtain ⟨fin, hfo, hiff⟩ := hdinv
    refine ⟨fin, hfo, fun x => ?_⟩
    constructor
    · intro hx
      obtain ⟨hv, hns⟩ := (hiff x).mp hx
      have hxn : x ≠ n := fun he => hnv (he ▸ hv)
      refine ⟨subset_jsSetAdd _ _ hv, fun hm => ?_⟩
      simp only [hs1, mem_jsSetAdd] at hm
      exact hm.elim hns hxn
    · rintro ⟨hv, hns⟩
      have hxn : x ≠ n := fun he => hns (he ▸ self_mem_jsSetAdd _ _)
      have hxv : x ∈ s.visited := by
        simp only [hs1, mem_jsSetAdd] at hv
        exact hv.resolve_right hxn
      refine (hiff x).mpr ⟨hxv, fun hm => hns (subset_jsSetAdd _ _ hm)⟩
  have hcu1 : cu g s1 ≤ fuel := by
    have hlt : cu g s1 < cu g s :=
      cu_lt_of_new (subset_jsSetAdd s.visited n) hn hnv (self_mem_jsSetAdd _ _)
    omega
  have hdeps : ∀ d ∈ depsOf g n, d ∈ g.nodes :=
    fun d hd => (mem_nodes_of_dep hwf hd).2
  rcases hv : ddfsVisit g fuel (depsOf g n) s1 with ⟨res, s3⟩
  cases res with
  | some c =>
    have heq2 : ddfs g (fuel + 1) n s = (some c, s3) := by
      simp only [ddfs]
      rw [← hs1, hv]
    rw [heq2] at h
    exact absurd (congrArg Prod.fst h) (by simp)
  | none =>
    set s4 : DetectState :=
      { visited := s3.visited
        recursionStack := s3.recursionStack.filter (fun y => y ≠ n)
        path := s3.path.dropLast } with hs4
    have heq2 : ddfs g (fuel + 1) n s = (none, s4) := by
      simp only [ddfs]
      rw [← hs1, hv]
    rw [heq2] at h
    obtain rfl : s4 = s2 := ((Prod.mk.injEq _ _ _ _).mp h).2
    obtain ⟨hstk3, hpath3, hvis3, hds3, hdinv3⟩ :=
      hQ (depsOf g n) s1 hdeps hstk1 hdinv1 hcu1 s3 hv
    have hstkeq : s4.recursionStack = s.recursionStack := by
      rw [hs4]
      simp only [hstk3, hs1]
      rw [jsSetAdd_eq_of_not_mem hnstk, List.filter_append]
      have h1 : s.recursionStack.filter (fun y => y ≠ n) = s.recursionStack :=
        List.filter_eq_self.mpr (fun a ha => by
          simp only [ne_eq, decide_not, Bool.not_eq_true']
          exact decide_eq_false (fun he => hnstk (he ▸ ha)))
      have h2 : List.filter (fun y => decide (y ≠ n)) [n] = [] := by simp
      rw [h1, h2, List.append_nil]
    have hpatheq : s4.path = s.path := by
      rw [hs4]
      simp only [hpath3, hs1]
      exact List.dropLast_concat
    have hvgrow : s.visited ⊆ s4.visited := by
      rw [hs4]
      exact List.Subset.trans (subset_jsSetAdd s.visited n) hvis3
    have hnvis4 : n ∈ s4.visited := by
      rw [hs4]
      exact hvis3 (by simp only [hs1, self_mem_jsSetAdd])
    refine ⟨hstkeq, hpatheq, hvgrow, hnvis4, ?_⟩
    obtain ⟨fin3, hfo3, hiff3⟩ := hdinv3
    refine ⟨fin3 ++ [n], ?_, ?_⟩
    · apply finOrder_append_one fin3 [] hfo3
      intro d hd
      refine Or.inr ((hiff3 d).mpr ?_)
      exact hds3 d hd
    · intro x
      constructor
      · intro hx
        rcases List.mem_append.mp hx with hx2 | hx2
        · obtain ⟨hvx, hsx⟩ := (hiff3 x).mp hx2
          refine ⟨hvx, fun hm => hsx ?_⟩
          rw [hstkeq] at hm
          rw [hstk3]
          exact subset_jsSetAdd _ _ hm
        · simp only [List.mem_singleton] at hx2
          subst hx2
          exact ⟨hnvis4, hstkeq ▸ hnstk⟩
      · rintro ⟨hvx, hsx⟩
        rw [hstkeq] at hsx
        by_cases hxn : x = n
        · exact List.mem_append.mpr (Or.inr (by simp [hxn]))
        · refine List.mem_append.mpr (Or.inl ((hiff3 x).mpr ⟨hvx, fun hm => ?_⟩))
          rw [hstk3] at hm
          simp only [hs1, mem_jsSetAdd] at hm
          exact hm.elim hsx hxn

theorem ddfs_comp_all {g : DependencyGraph} (hwf : WFGraph g) :
    ∀ fuel, DdfsCompP g fuel ∧ DdfsCompQ g fuel := by
  intro fuel
  induction fuel with
  | zero =>
    exact ⟨ddfs_comp_zero g, ddfsVisit_comp_of (ddfs_comp_zero g)⟩
  | succ f ih =>
    have hP := ddfs_comp_succ hwf ih.2
    exact ⟨hP, ddfsVisit_comp_of hP⟩

theorem detectLoop_complete {g : DependencyGraph} (hwf : WFGraph g) :
    ∀ (nodes : List String) (s : DetectState),
      (∀ x ∈ nodes, x ∈ g.nodes) → s.recursionStack = [] → DInv g s →
      detectLoop g nodes s = none →
      ∃ fin, FinOrder g [] fin ∧ ∀ x, (x ∈ nodes ∨ x ∈ s.visited) → x ∈ fin := by
  intro nodes
  induction nodes with
  | nil =>
    intro s _ hse hdinv _
    obtain ⟨fin, hfo, hiff⟩ := hdinv
    refine ⟨fin, hfo, fun x hx => ?_⟩
    rcases hx with hx | hx
    · simp at hx
    · exact (hiff x).mpr ⟨hx, by rw [hse]; simp⟩
  | cons n rest ih =>
    intro s hnodes hse hdinv h
    by_cases hvis : n ∈ s.visited
    · rw [detectLoop, if_pos hvis] at h
      obtain ⟨fin, hfo, hcov⟩ := ih s
        (fun x hx => hnodes x (List.mem_cons_of_mem _ hx)) hse hdinv h
      refine ⟨fin, hfo, fun x hx => ?_⟩
      rcases hx with hx | hx
      · rcases List.mem_cons.mp hx with rfl | hx2
        · exact hcov x (Or.inr hvis)
        · exact hcov x (Or.inl hx2)
      · exact hcov x (Or.inr hx)
    · rw [detectLoop, if_neg hvis] at h
      rcases hd : ddfs g g.nodes.length n s with ⟨res, s3⟩
      rw [hd] at h
      cases res with
      | some c => simp at h
      | none =>
        obtain ⟨hstk3, _, hvis3, hn3, hdinv3⟩ :=
          (ddfs_comp_all hwf g.nodes.length).1 n s
            (hnodes n (List.mem_cons_self n rest)) hvis
            (by rw [hse]; exact fun x hx => absurd hx (List.not_mem_nil x))
            hdinv (by unfold cu; exact List.length_filter_le _ _) s3 hd
        obtain ⟨fin, hfo, hcov⟩ := ih s3
          (fun x hx => hnodes x (List.mem_cons_of_mem _ hx))
          (hstk3.trans hse) hdinv3 h
        refine ⟨fin, hfo, fun x hx => ?_⟩
        rcases hx with hx | hx
        · rcases List.mem_cons.mp hx with rfl | hx2
          · exact hcov x (Or.inr hn3)
          · exact hcov x (Or.inl hx2)
        · exact hcov x (Or.inr (hvis3 hx))

/-- Completeness of detectCircularDependencies: when it reports no
cycle, the graph really is acyclic. -/
theorem detect_none_acyclic {g : DependencyGraph} (hwf : WFGraph g)
    (h : detectCircularDependencies g = none) : Acyclic g := by
  obtain ⟨fin, hfo, hcov⟩ := detectLoop_complete hwf g.nodes
    { visited := [], recursionStack := [], path := [] }
    (fun x hx => hx) rfl
    ⟨[], trivial, fun x => by simp⟩ h
  intro v hdep
  have hv : v ∈ g.nodes := by
    cases hdep with
    | direct hd => exact (mem_nodes_of_dep hwf hd).1
    | step hd _ => exact (mem_nodes_of_dep hwf hd).1
  exact finOrder_no_self fin [] hfo
    (fun x hx => absurd hx (List.not_mem_nil x))
    (fun x hx => absurd hx (List.not_mem_nil x))
    v (Or.inl (hcov v (Or.inl hv))) hdep

/-! Correctness of the topologicalSort post-order DFS. -/

/-- Dependency chain from any member of the front of a path to its last
element: strictly positive length, so it witnesses transitive
dependency. -/
theorem chain_mem_last_strict {g : DependencyGraph} :
    ∀ (l : List String) (z d : String),
      List.Chain' (DepEdge g) (l ++ [z]) → d ∈ l → DependsOn g d z := by
  intro l
  induction l with
  | nil => intro z d _ hd; simp at hd
  | cons a l' ih =>
    intro z d hchain hd
    rw [List.cons_append] at hchain
    have hc := List.chain'_cons'.mp hchain
    rcases List.mem_cons.mp hd with rfl | hd2
    · cases hl' : l' with
      | nil =>
        subst hl'
        have hedge : DepEdge g d z := hc.1 z (by simp)
        exact DependsOn.direct hedge
      | cons b bs =>
        subst hl'
        have hedge : DepEdge g d b := hc.1 b (by simp)
        exact DependsOn.trans (DependsOn.direct hedge)
          (ih z b hc.2 (List.mem_cons_self b bs))
    · exact ih z d hc.2 hd2

/-- Ids of the services accumulated in the visit result. -/
def resultIds (s : VisitState) : List String :=
  s.result.map (fun c => c.id)

/-- Invariant of the topologicalSort visit, relative to the ghost list
of DFS ancestors currently on the call stack: visited nodes are exactly
output nodes plus ancestors, the output is closed and ordered
dependencies-first, has no duplicates, and is disjoint from the stack. -/
def TInv (g : DependencyGraph) (s : VisitState) (stk : List String) : Prop :=
  (∀ x, x ∈ s.visited ↔ (x ∈ resultIds s ∨ x ∈ stk)) ∧
  FinOrder g [] (resultIds s) ∧
  (resultIds s).Nodup ∧
  (∀ x ∈ resultIds s, x ∉ stk)

/-- Unvisited-node count for the visit state, the fuel budget. -/
def cuv (g : DependencyGraph) (s : VisitState) : Nat :=
  (g.nodes.filter (fun x => x ∉ s.visited)).length

theorem cuv_mono {g : DependencyGraph} {s s2 : VisitState}
    (h : s.visited ⊆ s2.visited) : cuv g s2 ≤ cuv g s := by
  unfold cuv
  apply length_filter_mono
  intro x hx
  simp only [decide_eq_true_eq] at hx ⊢
  exact fun hmem => hx (h hmem)

theorem cuv_lt_of_new {g : DependencyGraph} {s s2 : VisitState} {n : String}
    (hsub : s.visited ⊆ s2.visited) (hn : n ∈ g.nodes) (hnv : n ∉ s.visited)
    (hn2 : n ∈ s2.visited) : cuv g s2 < cuv g s := by
  unfold cuv
  apply length_filter_lt ?_ g.nodes hn (by simp [hnv]) (by simp [hn2])
  intro x hx
  simp only [decide_eq_true_eq] at hx ⊢
  exact fun hmem => hx (hsub hmem)

/-- Correctness induction statement for tvisit at a given fuel. -/
def TvisitP (g : DependencyGraph) (smap : List (String × ServiceConfig))
    (fuel : Nat) : Prop :=
  ∀ n s stk, n ∈ g.nodes → List.Chain' (DepEdge g) (stk ++ [n]) →
    TInv g s stk → cuv g s < fuel →
    TInv g (tvisit g smap fuel n s) stk ∧
    n ∈ resultIds (tvisit g smap fuel n s) ∧
    s.visited ⊆ (tvisit g smap fuel n s).visited ∧
    (∀ x ∈ resultIds s, x ∈ resultIds (tvisit g smap fuel n s))

/-- Correctness induction statement for tvisitList at a given fuel. -/
def TvisitQ (g : DependencyGraph) (smap : List (String × ServiceConfig))
    (fuel : Nat) : Prop :=
  ∀ ds s stk, (∀ d ∈ ds, d ∈ g.nodes) →
    (∀ d ∈ ds, List.Chain' (DepEdge g) (stk ++ [d])) →
    TInv g s stk → cuv g s < fuel →
    TInv g (tvisitList g smap fuel ds s) stk ∧
    (∀ d ∈ ds, d ∈ resultIds (tvisitList g smap fuel ds s)) ∧
    s.visited ⊆ (tvisitList g smap fuel ds s).visited ∧
    (∀ x ∈ resultIds s, x ∈ resultIds (tvisitList g smap fuel ds s))

theorem tvisit_correct_zero (g : DependencyGraph)
    (smap : List (String × ServiceConfig)) : TvisitP g smap 0 := by
  intro n s stk _ _ _ hcu
  omega

theorem tvisitList_correct_of {g : DependencyGraph}
    {smap : List (String × ServiceConfig)} {fuel : Nat}
    (hP : TvisitP g smap fuel) : TvisitQ g smap fuel := by
  intro ds
  induction ds with
  | nil =>
    intro s stk _ _ hinv _
    have heq : tvisitList g smap fuel [] s = s := by
      simp only [tvisitList]
    rw [heq]
    exact ⟨hinv, by simp, fun _ hx => hx, fun x hx => hx⟩
  | cons d ds ih =>
    intro s stk hnodes hchains hinv hcu
    have hstep := hP d s stk (hnodes d (List.mem_cons_self d ds))
      (hchains d (List.mem_cons_self d ds)) hinv hcu
    have heq : tvisitList g smap fuel (d :: ds) s =
        tvisitList g smap fuel ds (tvisit g smap fuel d s) := by
      simp only [tvisitList]
    rw [heq]
    have hrec := ih (tvisit g smap fuel d s) stk
      (fun x hx => hnodes x (List.mem_cons_of_mem _ hx))
      (fun x hx => hchains x (List.mem_cons_of_mem _ hx))
      hstep.1 (lt_of_le_of_lt (cuv_mono hstep.2.2.1) hcu)
    refine ⟨hrec.1, fun x hx => ?_, List.Subset.trans hstep.2.2.1 hrec.2.2.1,
      fun x hx => hrec.2.2.2 x (hstep.2.2.2 x hx)⟩
    rcases List.mem_cons.mp hx with rfl | hx2
    · exact hrec.2.2.2 x hstep.2.1
    · exact hrec.2.1 x hx2

theorem tvisit_correct_succ {g : DependencyGraph}
    {smap : List (String × ServiceConfig)} {fuel : Nat}
    (hacyc : Acyclic g) (hwf : WFGraph g)
    (hsmap1 : ∀ k cfg, jsMapGet smap k = some cfg → cfg.id = k)
    (hsmap2 : ∀ k ∈ g.nodes, ∃ cfg, jsMapGet smap k = some cfg)
    (hQ : TvisitQ g smap fuel) : TvisitP g smap (fuel + 1) := by
  intro n s stk hn hchain hinv hcu
  have hnstk : n ∉ stk := by
    intro hmem
    exact hacyc n (chain_mem_last_strict stk n n hchain hmem)
  by_cases hvis : n ∈ s.visited
  · have heq : tvisit g smap (fuel + 1) n s = s := by
      simp only [tvisit, if_pos hvis]
    rw [heq]
    have hres : n ∈ resultIds s :=
      ((hinv.1 n).mp hvis).resolve_right hnstk
    exact ⟨hinv, hres, fun _ hx => hx, fun x hx => hx⟩
  · set s1 : VisitState := { s with visited := jsSetAdd s.visited n } with hs1
    have hinv1 : TInv g s1 (stk ++ [n]) := by
      refine ⟨fun x => ?_, hinv.2.1, hinv.2.2.1, fun x hx => ?_⟩
      · simp only [hs1, mem_jsSetAdd, List.mem_append, List.mem_singleton]
        rw [hinv.1 x]
        tauto
      · simp only [List.mem_append, List.mem_singleton]
        rintro (hmem | rfl)
        · exact hinv.2.2.2 x hx hmem
        · exact hvis ((hinv.1 x).mpr (Or.inl hx))
    have hchains1 : ∀ d ∈ depsOf g n, List.Chain' (DepEdge g) ((stk ++ [n]) ++ [d]) := by
      intro d hd
      rw [List.chain'_append]
      refine ⟨hchain, List.chain'_singleton d, ?_⟩
      intro x hx y hy
      simp only [List.getLast?_concat, Option.mem_def, Option.some_inj] at hx
      simp only [List.head?_cons, Option.mem_def, Option.some_inj] at hy
      subst hx; subst hy
      exact hd
    have hcu1 : cuv g s1 < fuel := by
      have hlt : cuv g s1 < cuv g s :=
        cuv_lt_of_new (subset_jsSetAdd s.visited n) hn hvis
          (by simp only [hs1]; exact self_mem_jsSetAdd _ _)
      omega
    have hdeps : ∀ d ∈ depsOf g n, d ∈ g.nodes :=
      fun d hd => (mem_nodes_of_dep hwf hd).2
    have hrec := hQ (depsOf g n) s1 (stk ++ [n]) hdeps hchains1 hinv1 hcu1
    set s2 := tvisitList g smap fuel (depsOf g n) s1 with hs2
    obtain ⟨cfg, hcfg⟩ := hsmap2 n hn
    have hcfgid : cfg.id = n := hsmap1 n cfg hcfg
    have heq : tvisit g smap (fuel + 1) n s =
        { s2 with result := s2.result ++ [cfg] } := by
      simp only [tvisit, if_neg hvis]
      rw [← hs1, ← hs2, hcfg]
    rw [heq]
    have hres3 : resultIds { s2 with result := s2.result ++ [cfg] } =
        resultIds s2 ++ [n] := by
      simp only [resultIds, List.map_append, List.map_cons, List.map_nil, hcfgid]
    have hninres2 : n ∉ resultIds s2 := by
      intro hmem
      exact hrec.1.2.2.2 n hmem (by simp)
    have hsubvis : s.visited ⊆ s2.visited :=
      List.Subset.trans (subset_jsSetAdd s.visited n) hrec.2.2.1
    refine ⟨⟨fun x => ?_, ?_, ?_, fun x hx => ?_⟩, ?_, hsubvis, fun x hx => ?_⟩
    · show x ∈ s2.visited ↔ _
      rw [hrec.1.1 x, hres3]
      simp only [List.mem_append, List.mem_singleton]
      tauto
    · rw [hres3]
      apply finOrder_append_one _ _ hrec.1.2.1
      intro d hd
      exact Or.inr (hrec.2.1 d hd)
    · rw [hres3]
      simp only [List.nodup_append, List.nodup_singleton]
      exact ⟨hrec.1.2.2.1, trivial, by
        intro x hx hx2
        simp only [List.mem_singleton] at hx2
        subst hx2
        exact hninres2 hx⟩
    · rw [hres3] at hx
      rcases List.mem_append.mp hx with hx2 | hx2
      · exact fun hmem => hrec.1.2.2.2 x hx2 (List.mem_append.mpr (Or.inl hmem))
      · simp only [List.mem_singleton] at hx2
        exact hx2 ▸ hnstk
    · rw [hres3]
      simp
    · rw [hres3]
      exact List.mem_append.mpr (Or.inl (hrec.2.2.2 x hx))

theorem tvisit_correct_all {g : DependencyGraph}
    {smap : List (String × ServiceConfig)}
    (hacyc : Acyclic g) (hwf : WFGraph g)
    (hsmap1 : ∀ k cfg, jsMapGet smap k = some cfg → cfg.id = k)
    (hsmap2 : ∀ k ∈ g.nodes, ∃ cfg, jsMapGet smap k = some cfg) :
    ∀ fuel, TvisitP g smap fuel ∧ TvisitQ g smap fuel := by
  intro fuel
  induction fuel with
  | zero =>
    exact ⟨tvisit_correct_zero g smap,
      tvisitList_correct_of (tvisit_correct_zero g smap)⟩
  | succ f ih =>
    have hP := tvisit_correct_succ hacyc hwf hsmap1 hsmap2 ih.2
    exact ⟨hP, tvisitList_correct_of hP⟩

/-! Bridge lemmas relating graphs built from service lists with unique
ids (guaranteed by upstream config validation) to the service lists. -/

theorem jsMapSet_fresh {α : Type} {m : List (String × α)} {k : String} {v : α}
    (h : ∀ q ∈ m, q.1 ≠ k) : jsMapSet m k v = m ++ [(k, v)] := by
  have hany : m.any (fun p => p.1 == k) = false := by
    rw [List.any_eq_false]
    intro p hp
    simpa using h p hp
  unfold jsMapSet
  rw [hany]
  simp

theorem foldl_jsMapSet_eq {α : Type} :
    ∀ (pairs acc : List (String × α)),
      (acc.map Prod.fst ++ pairs.map Prod.fst).Nodup →
      pairs.foldl (fun m p => jsMapSet m p.1 p.2) acc = acc ++ pairs := by
  intro pairs
  induction pairs with
  | nil => intro acc _; simp
  | cons p ps ih =>
    intro acc hnd
    simp only [List.foldl_cons]
    have hfresh : ∀ q ∈ acc, q.1 ≠ p.1 := by
      intro q hq he
      simp only [List.map_cons, List.nodup_append] at hnd
      exact hnd.2.2 (List.mem_map_of_mem Prod.fst hq) (he ▸ by simp)
    rw [jsMapSet_fresh hfresh]
    rw [ih (acc ++ [(p.1, p.2)]) ?_]
    · simp
    · have hperm : (acc ++ [(p.1, p.2)]).map Prod.fst ++ ps.map Prod.fst =
          acc.map Prod.fst ++ (p :: ps).map Prod.fst := by
        simp
      rw [hperm]
      exact hnd

theorem jsMapGet_map_find {α : Type} (F : ServiceConfig → α) :
    ∀ (services : List ServiceConfig) (v : String),
      jsMapGet (services.map (fun s => (s.id, F s))) v =
        (services.find? (fun s => s.id == v)).map F := by
  intro services
  induction services with
  | nil => intro v; rfl
  | cons s ss ih =>
    intro v
    simp only [List.map_cons, jsMapGet, List.find?]
    by_cases he : s.id == v
    · simp [he]
    · simp only [Bool.not_eq_true] at he
      simp only [he]
      exact ih v

theorem find?_self_of_nodup :
    ∀ (services : List ServiceConfig) (s : ServiceConfig),
      (services.map (fun t => t.id)).Nodup → s ∈ services →
      services.find? (fun t => t.id == s.id) = some s := by
  intro services
  induction services with
  | nil => intro s _ hs; simp at hs
  | cons t ts ih =>
    intro s hnd hs
    rcases List.mem_cons.mp hs with rfl | hmem
    · simp [List.find?]
    · have hne : t.id ≠ s.id := by
        intro he
        simp only [List.map_cons, List.nodup_cons] at hnd
        exact hnd.1 (he ▸ List.mem_map_of_mem (fun t => t.id) hmem)
      simp only [List.find?, show (t.id == s.id) = false by simpa using hne]
      exact ih s (by simp only [List.map_cons, List.nodup_cons] at hnd; exact hnd.2) hmem

theorem buildDependencyGraph_edges {services : List ServiceConfig}
    (h : (services.map (fun s => s.id)).Nodup) :
    (buildDependencyGraph services).edges =
      services.map (fun s => (s.id, jsSetList s.dependsOn)) := by
  show services.foldl (fun m s => jsMapSet m s.id (jsSetList s.dependsOn)) [] = _
  have hfold : services.foldl (fun m s => jsMapSet m s.id (jsSetList s.dependsOn)) [] =
      (services.map (fun s => (s.id, jsSetList s.dependsOn))).foldl
        (fun m p => jsMapSet m p.1 p.2) [] := by
    rw [List.foldl_map]
  rw [hfold, foldl_jsMapSet_eq _ [] (by simpa [Function.comp] using h)]
  simp

theorem mem_build_nodes {services : List ServiceConfig} {x : String} :
    x ∈ (buildDependencyGraph services).nodes ↔
      x ∈ services.map (fun s => s.id) := by
  show x ∈ jsSetList _ ↔ _
  exact mem_jsSetList

theorem depsOf_build {services : List ServiceConfig}
    (h : (services.map (fun s => s.id)).Nodup) (v : String) :
    depsOf (buildDependencyGraph services) v =
      ((services.find? (fun s => s.id == v)).map
        (fun s => jsSetList s.dependsOn)).getD [] := by
  unfold depsOf
  rw [buildDependencyGraph_edges h]
  have := jsMapGet_map_find (fun s => jsSetList s.dependsOn) services v
  rw [this]

theorem mem_depsOf_build {services : List ServiceConfig}
    (h : (services.map (fun s => s.id)).Nodup) {s : ServiceConfig}
    (hs : s ∈ services) {d : String} :
    d ∈ depsOf (buildDependencyGraph services) s.id ↔ d ∈ s.dependsOn := by
  rw [depsOf_build h, find?_self_of_nodup services s h hs]
  simp only [Option.map_some', Option.getD_some]
  exact mem_jsSetList

theorem wf_build {services : List ServiceConfig}
    (h : (services.map (fun s => s.id)).Nodup)
    (hdeps : ∀ s ∈ services, ∀ d ∈ s.dependsOn, d ∈ services.map (fun t => t.id)) :
    WFGraph (buildDependencyGraph services) := by
  intro p hp
  rw [buildDependencyGraph_edges h] at hp
  obtain ⟨s, hs, rfl⟩ := List.mem_map.mp hp
  constructor
  · exact mem_build_nodes.mpr (List.mem_map_of_mem (fun t => t.id) hs)
  · intro d hd
    exact mem_build_nodes.mpr (hdeps s hs d (mem_jsSetList.mp hd))

/-! Index ordering extracted from a finish order. -/

theorem finOrder_index {g : DependencyGraph} :
    ∀ (fin done : List String), FinOrder g done fin → fin.Nodup →
      ∀ v ∈ fin, ∀ d ∈ depsOf g v,
        d ∈ done ∨ (d ∈ fin ∧ fin.indexOf d < fin.indexOf v) := by
  intro fin
  induction fin with
  | nil => intro done _ _ v hv; simp at hv
  | cons w rest ih =>
    intro done hfo hnd v hv d hd
    rcases List.mem_cons.mp hv with rfl | hv2
    · exact Or.inl (hfo.1 d hd)
    · have hvw : v ≠ w := by
        rintro rfl
        exact (List.nodup_cons.mp hnd).1 hv2
      rcases ih (w :: done) hfo.2 (List.nodup_cons.mp hnd).2 v hv2 d hd with hdone | hrest
      · rcases List.mem_cons.mp hdone with rfl | hdone2
        · refine Or.inr ⟨List.mem_cons_self _ _, ?_⟩
          rw [List.indexOf_cons_self, List.indexOf_cons_ne rest hvw.symm]
          exact Nat.succ_pos _
        · exact Or.inl hdone2
      · have hdw : d ≠ w := by
          rintro rfl
          exact (List.nodup_cons.mp hnd).1 hrest.1
        refine Or.inr ⟨List.mem_cons_of_mem _ hrest.1, ?_⟩
        rw [List.indexOf_cons_ne rest hdw.symm, List.indexOf_cons_ne rest hvw.symm]
        exact Nat.succ_lt_succ hrest.2

theorem finOrder_edge_lt {g : DependencyGraph} {L : List String}
    (hfo : FinOrder g [] L) (hnd : L.Nodup) {v d : String}
    (hv : v ∈ L) (hd : d ∈ depsOf g v) :
    d ∈ L ∧ L.indexOf d < L.indexOf v := by
  rcases finOrder_index L [] hfo hnd v hv d hd with h | h
  · simp at h
  · exact h

theorem finOrder_reach_lt {g : DependencyGraph} {L : List String}
    (hfo : FinOrder g [] L) (hnd : L.Nodup) :
    ∀ {w v : String}, DependsOn g w v → w ∈ L →
      v ∈ L ∧ L.indexOf v < L.indexOf w := by
  intro w v hdep
  induction hdep with
  | direct hd =>
    intro hw
    exact finOrder_edge_lt hfo hnd hw hd
  | step hd _ ihd =>
    intro hw
    have hedge := finOrder_edge_lt hfo hnd hw hd
    have hrec := ihd hedge.1
    exact ⟨hrec.1, lt_trans hrec.2 hedge.2⟩

/-- Main correctness statement for topologicalSort on an acyclic
validated service list: it succeeds and its output, read as an id list,
is a duplicate-free finish order covering every graph node. -/
theorem topologicalSort_ok {services : List ServiceConfig}
    (hids : (services.map (fun s => s.id)).Nodup)
    (hdeps : ∀ s ∈ services, ∀ d ∈ s.dependsOn, d ∈ services.map (fun t => t.id))
    (hacyc : Acyclic (buildDependencyGraph services)) :
    ∃ out, topologicalSort services = Except.ok out ∧
      FinOrder (buildDependencyGraph services) [] (out.map (fun c => c.id)) ∧
      (out.map (fun c => c.id)).Nodup ∧
      ∀ x ∈ (buildDependencyGraph services).nodes, x ∈ out.map (fun c => c.id) := by
  set g := buildDependencyGraph services with hg
  set smap := jsMapOfList (services.map (fun s => (s.id, s))) with hsmapdef
  have hwf : WFGraph g := wf_build hids hdeps
  have hdet : detectCircularDependencies g = none := detect_none_of_acyclic hacyc
  have hsmapeq : smap = services.map (fun s => (s.id, s)) := by
    rw [hsmapdef]
    unfold jsMapOfList
    exact foldl_jsMapSet_eq _ [] (by simpa [Function.comp] using hids)
  have hsmapget : ∀ k, jsMapGet smap k =
      (services.find? (fun s => s.id == k)).map (fun s => s) := by
    intro k
    rw [hsmapeq]
    exact jsMapGet_map_find (fun s => s) services k
  have hsmap1 : ∀ k cfg, jsMapGet smap k = some cfg → cfg.id = k := by
    intro k cfg hget
    rw [hsmapget] at hget
    rcases hf : services.find? (fun s => s.id == k) with _ | t
    · rw [hf] at hget; simp at hget
    · rw [hf] at hget
      simp only [Option.map_some', Option.some_inj] at hget
      have := List.find?_some hf
      subst hget
      simpa using this
  have hsmap2 : ∀ k ∈ g.nodes, ∃ cfg, jsMapGet smap k = some cfg := by
    intro k hk
    rw [hg] at hk
    obtain ⟨s, hs, hsid⟩ := List.mem_map.mp (mem_build_nodes.mp hk)
    rw [hsmapget]
    have hfind : (services.find? (fun s => s.id == k)).isSome := by
      rw [List.find?_isSome]
      exact ⟨s, hs, by simp [hsid]⟩
    rcases hf : services.find? (fun s => s.id == k) with _ | t
    · rw [hf] at hfind; simp at hfind
    · exact ⟨t, by rw [hf]; simp⟩
  have hrun := (tvisit_correct_all hacyc hwf hsmap1 hsmap2 (g.nodes.length + 1)).2
    g.nodes { visited := [], result := [] } []
    (fun d hd => hd)
    (fun d _ => by simp only [List.nil_append]; exact List.chain'_singleton d)
    ⟨fun x => by simp [resultIds], trivial, by simp [resultIds], by simp [resultIds]⟩
    (by unfold cuv; exact Nat.lt_succ_of_le (List.length_filter_le _ _))
  set sFin := tvisitList g smap (g.nodes.length + 1) g.nodes
    { visited := [], result := [] } with hsfin
  have heq : topologicalSort services = Except.ok sFin.result := by
    show (match detectCircularDependencies g with
      | some cycle => Except.error cycle
      | none =>
        Except.ok (tvisitList g smap (g.nodes.length + 1) g.nodes
          { visited := [], result := [] }).result) = Except.ok sFin.result
    rw [hdet]
  exact ⟨sFin.result, heq, hrun.1.2.1, hrun.1.2.2.1, fun x hx => hrun.2.1 x hx⟩

/-- Claim C1: for every acyclic list of service configs (validated
upstream: unique ids, resolvable dependency ids), topologicalSort
succeeds and returns an ordering in which every declared dependency of a
service appears strictly before the service itself and before every
transitive dependent of that service. -/
theorem topologicalSort_deps_before_dependents
    (services : List ServiceConfig)
    (hids : (services.map (fun s => s.id)).Nodup)
    (hdeps : ∀ s ∈ services, ∀ d ∈ s.dependsOn, d ∈ services.map (fun t => t.id))
    (hacyc : Acyclic (buildDependencyGraph services)) :
    ∃ out, topologicalSort services = Except.ok out ∧
      ∀ v ∈ services, ∀ u ∈ v.dependsOn, ∀ w,
        DependsOn (buildDependencyGraph services) w v.id →
        u ∈ out.map (fun c => c.id) ∧ w ∈ out.map (fun c => c.id) ∧
        (out.map (fun c => c.id)).indexOf u <
          (out.map (fun c => c.id)).indexOf w := by
  obtain ⟨out, hok, hfo, hnd, hcov⟩ := topologicalSort_ok hids hdeps hacyc
  have hwf : WFGraph (buildDependencyGraph services) := wf_build hids hdeps
  refine ⟨out, hok, fun v hv u hu w hw => ?_⟩
  have hedge : u ∈ depsOf (buildDependencyGraph services) v.id :=
    (mem_depsOf_build hids hv).mpr hu
  have hvL : v.id ∈ out.map (fun c => c.id) :=
    hcov v.id (mem_build_nodes.mpr (List.mem_map_of_mem (fun s => s.id) hv))
  have hulv := finOrder_edge_lt hfo hnd hvL hedge
  have hwnodes : w ∈ (buildDependencyGraph services).nodes := by
    cases hw with
    | direct hd => exact (mem_nodes_of_dep hwf hd).1
    | step hd _ => exact (mem_nodes_of_dep hwf hd).1
  have hwL : w ∈ out.map (fun c => c.id) := hcov w hwnodes
  have hvlw := finOrder_reach_lt hfo hnd hw hwL
  exact ⟨hulv.1, hwL, lt_trans hulv.2 hvlw.2⟩

/-- Sample two-service acyclic configuration used to witness the
dependency-graph theorems at a concrete input. -/
def sampleService (i : String) (deps : List String) : ServiceConfig :=
  { id := i, name := i, dir := ".", start := "npm start", stop := none,
    autostart := false, logs := false, env := [], dependsOn := deps,
    readyPattern := none, readyDelay := 500, keepRunning := false }

def sampleAcyclicServices : List ServiceConfig :=
  [sampleService "db" [], sampleService "web" ["db"]]

theorem sampleAcyclic : Acyclic (buildDependencyGraph sampleAcyclicServices) := by
  apply detect_none_acyclic (by decide)
  simp [detectCircularDependencies, detectLoop, ddfs, ddfsVisit, depsOf, jsMapGet,
    jsSetAdd, extractCycle, buildDependencyGraph, sampleAcyclicServices, sampleService,
    jsSetList, jsMapSet]

/-- Witness for claim C1: the hypotheses hold and the theorem applies at
a concrete two-service configuration. -/
theorem topologicalSort_deps_before_dependents_witness :
    ((sampleAcyclicServices.map (fun s => s.id)).Nodup ∧
      (∀ s ∈ sampleAcyclicServices, ∀ d ∈ s.dependsOn,
        d ∈ sampleAcyclicServices.map (fun t => t.id)) ∧
      Acyclic (buildDependencyGraph sampleAcyclicServices)) ∧
    (∃ out, topologicalSort sampleAcyclicServices = Except.ok out ∧
      ∀ v ∈ sampleAcyclicServices, ∀ u ∈ v.dependsOn, ∀ w,
        DependsOn (buildDependencyGraph sampleAcyclicServices) w v.id →
        u ∈ out.map (fun c => c.id) ∧ w ∈ out.map (fun c => c.id) ∧
        (out.map (fun c => c.id)).indexOf u <
          (out.map (fun c => c.id)).indexOf w) :=
  ⟨⟨by decide, by decide, sampleAcyclic⟩,
    topologicalSort_deps_before_dependents sampleAcyclicServices
      (by decide) (by decide) sampleAcyclic⟩

/-- Three-node cyclic graph a depends on b, b depends on c, c depends
on a, from the specification example. -/
def triangleGraph : DependencyGraph :=
  { nodes := ["a", "b", "c"]
    edges := [("a", ["b"]), ("b", ["c"]), ("c", ["a"])] }

/-- Claim C2: for every well-formed dependency graph,
detectCircularDependencies returns none exactly when the graph is
acyclic; and on the three-node cycle graph it returns a path containing
a, b and c. -/
theorem detect_none_iff_acyclic_and_triangle :
    (∀ g : DependencyGraph, WFGraph g →
      (detectCircularDependencies g = none ↔ Acyclic g)) ∧
    (∃ c, detectCircularDependencies triangleGraph = some c ∧
      "a" ∈ c ∧ "b" ∈ c ∧ "c" ∈ c) := by
  constructor
  · intro g hwf
    exact ⟨detect_none_acyclic hwf, detect_none_of_acyclic⟩
  · refine ⟨["a", "b", "c", "a"], ?_, by simp, by simp, by simp⟩
    simp [detectCircularDependencies, detectLoop, ddfs, ddfsVisit, depsOf, jsMapGet,
      jsSetAdd, extractCycle, triangleGraph]

/-- Two-node acyclic graph used to witness claim C2 at a concrete
input. -/
def sampleLineGraph : DependencyGraph :=
  { nodes := ["a", "b"]
    edges := [("a", []), ("b", ["a"])] }

/-- Witness for claim C2: the well-formedness hypothesis holds and the
equivalence applies at a concrete graph. -/
theorem detect_none_iff_acyclic_and_triangle_witness :
    WFGraph sampleLineGraph ∧
    (detectCircularDependencies sampleLineGraph = none ↔ Acyclic sampleLineGraph) :=
  ⟨by decide, detect_none_iff_acyclic_and_triangle.1 sampleLineGraph (by decide)⟩

/-!
ProcessSupervisor: shallow embedding of the process-manager module.
Stateful code becomes explicit state passing: each handler returns the
new supervisor state together with the events emitted and the signals
sent to the OS process.  Timers (setTimeout) are modelled by absolute
fire times stored in the per-supervisor single slots of the source
(readyTimeout, stopTimeout, killTimeout); the stopTimeout slot also
records which escalation closure was stored in it.  The compiled
RegExp of a ready pattern is modelled by its test predicate.  Wall-clock
timestamps of log lines are irrelevant to every claim and are omitted
from the LogLine embedding.
-/

/-- Escalation timeout constants from the source. -/
def SIGTERM_TIMEOUT : Nat := 5000

def SIGKILL_TIMEOUT : Nat := 2000

/-- Stream tag of a log line. -/
inductive StreamTag
  | stdout
  | stderr
deriving DecidableEq, Repr

/-- A log line: one already-split line of process output. -/
structure LogLine where
  content : String
  stream : StreamTag
deriving DecidableEq, Repr

/-- POSIX signals sent by the stop/kill escalation ladder. -/
inductive Signal
  | SIGINT
  | SIGTERM
  | SIGKILL
deriving DecidableEq, Repr

/-- Events emitted by a supervisor (the ProcessManagerEvents contract).
A statusChange carries the optional exit-code argument: none models an
omitted argument, some none models an explicit null. -/
inductive PEvent
  | log (line : LogLine)
  | statusChange (status : ServiceStatus) (exitCode : Option (Option Int))
  | ready
  | errorEv (message : String)
deriving DecidableEq, Repr

/-- Closure stored in the stopTimeout slot: escalate to SIGTERM (armed
by stopProcess) or escalate to SIGKILL (armed by escalateToSigterm). -/
inductive StopCb
  | toSigterm
  | toSigkill
deriving DecidableEq, Repr

/-- Mutable supervisor state (the ProcessState interface).  The process
handle is modelled by an attachment flag; timers store absolute fire
times. -/
structure ProcState where
  status : ServiceStatus
  pid : Option Nat
  processAttached : Bool
  exitCode : Option Int
  readyTimeout : Option Nat
  stopTimeout : Option (Nat × StopCb)
  killTimeout : Option Nat
deriving DecidableEq, Repr

/-- Initial supervisor state from createProcessManager. -/
def initialProcState : ProcState :=
  { status := ServiceStatus.stopped
    pid := none
    processAttached := false
    exitCode := none
    readyTimeout := none
    stopTimeout := none
    killTimeout := none }

/-- Embedding of emitStatus: store the status, record the exit code only
when the argument was supplied, and emit a statusChange event. -/
def emitStatus (s : ProcState) (status : ServiceStatus)
    (exitCode : Option (Option Int)) : ProcState × List PEvent :=
  ({ s with
      status := status
      exitCode := match exitCode with
        | none => s.exitCode
        | some c => c },
    [PEvent.statusChange status exitCode])

/-- Embedding of clearAllTimeouts. -/
def clearAllTimeouts (s : ProcState) : ProcState :=
  { s with readyTimeout := none, stopTimeout := none, killTimeout := none }

/-- Embedding of handleReadyPattern: while still starting, the first
line matching the configured pattern transitions to ready and emits a
ready event; returns whether the line matched. -/
def handleReadyPattern (s : ProcState) (content : String)
    (readyPattern : Option (String → Bool)) :
    Bool × ProcState × List PEvent :=
  if s.status ≠ ServiceStatus.starting then
    (false, s, [])
  else
    match readyPattern with
    | some test =>
      if test content then
        let (s1, ev1) := emitStatus s ServiceStatus.ready none
        (true, s1, ev1 ++ [PEvent.ready])
      else
        (false, s, [])
    | none => (false, s, [])

/-- Embedding of setupReadyTimeout: arm the one-shot ready-delay timer
only when no ready timer is already armed. -/
def setupReadyTimeout (s : ProcState) (readyDelay now : Nat) : ProcState :=
  if s.readyTimeout ≠ none then s
  else { s with readyTimeout := some (now + readyDelay) }

/-- Body of the ready-delay timer callback: when it fires, transition to
ready only if still starting. -/
def fireReadyTimeout (s : ProcState) : ProcState × List PEvent :=
  if s.status = ServiceStatus.starting then
    let (s1, ev1) := emitStatus s ServiceStatus.ready none
    (s1, ev1 ++ [PEvent.ready])
  else
    (s, [])

/-- Line splitting of a data chunk, from
data.toString().split(newline).filter(line =&gt; line.length &gt; 0). -/
def splitLines (data : String) : List String :=
  ((data.toList.splitOn '\n').map (fun cs => cs.asString)).filter
    (fun l => 0 < l.length)

/-- Embedding of handleStdout: emit a log event per line, try the ready
pattern, and with no pattern configured arm the ready-delay timer while
still starting. -/
def handleStdout (s : ProcState) (data : String)
    (readyPattern : Option (String → Bool)) (readyDelay now : Nat) :
    ProcState × List PEvent :=
  (splitLines data).foldl
    (fun acc line =>
      let (s0, evs) := acc
      let (matched, s1, evs1) := handleReadyPattern s0 line readyPattern
      let s2 :=
        if matched = false ∧ readyPattern.isNone ∧
            s1.status = ServiceStatus.starting then
          setupReadyTimeout s1 readyDelay now
        else s1
      (s2, evs ++ [PEvent.log ⟨line, StreamTag.stdout⟩] ++ evs1))
    (s, [])

/-- Embedding of handleStderr: only log events; the source function
receives no supervisor state and touches no timer. -/
def handleStderr (data : String) : List PEvent :=
  (splitLines data).map (fun line => PEvent.log ⟨line, StreamTag.stderr⟩)

/-- Wiring of the stderr data handler as registered by startProcess:
the supervisor state is passed through untouched. -/
def stderrDataHandler (s : ProcState) (data : String) :
    ProcState × List PEvent :=
  (s, handleStderr data)

/-- Embedding of handleProcessExit: clear timers, drop the process
handle, and transition to stopped (from stopping) or crashed (from any
other status), recording the observed exit code. -/
def handleProcessExit (s : ProcState) (code : Option Int) :
    ProcState × List PEvent :=
  let s1 := clearAllTimeouts s
  let s2 := { s1 with processAttached := false, pid := none }
  if s2.status = ServiceStatus.stopping then
    emitStatus s2 ServiceStatus.stopped (some code)
  else
    emitStatus s2 ServiceStatus.crashed (some code)

/-- Embedding of handleProcessError: spawn-level failure transitions to
crashed with a null exit code and emits an error event. -/
def handleProcessError (s : ProcState) (message : String) :
    ProcState × List PEvent :=
  let s1 := clearAllTimeouts s
  let s2 := { s1 with processAttached := false, pid := none }
  let (s3, ev3) := emitStatus s2 ServiceStatus.crashed (some none)
  (s3, ev3 ++ [PEvent.errorEv message])

/-- Embedding of sendSignal: the signal reaches the process only while
one is attached. -/
def sendSignal (s : ProcState) (sig : Signal) : List Signal :=
  if s.processAttached then [sig] else []

/-- Embedding of startProcess: no-op when a process is already attached,
otherwise emit starting (before the handle is stored, as in the source)
and attach the spawned process with its OS-assigned pid. -/
def startProcess (s : ProcState) (spawnPid : Option Nat) :
    ProcState × List PEvent :=
  if s.processAttached then (s, [])
  else
    let (s1, ev1) := emitStatus s ServiceStatus.starting none
    (({ s1 with processAttached := true, pid := spawnPid }), ev1)

/-- Embedding of escalateToSigterm: send SIGTERM and arm the stop slot
to escalate to SIGKILL after SIGTERM_TIMEOUT. -/
def escalateToSigterm (s : ProcState) (now : Nat) : ProcState × List Signal :=
  let sigs := sendSignal s Signal.SIGTERM
  ({ s with stopTimeout := some (now + SIGTERM_TIMEOUT, StopCb.toSigkill) }, sigs)

/-- Embedding of escalateToSigkill: send SIGKILL and arm the kill slot
for the terminal check after SIGKILL_TIMEOUT. -/
def escalateToSigkill (s : ProcState) (now : Nat) : ProcState × List Signal :=
  let sigs := sendSignal s Signal.SIGKILL
  ({ s with killTimeout := some (now + SIGKILL_TIMEOUT) }, sigs)

/-- Body of the kill-timeout callback: a process still attached after
SIGKILL is a failed termination, reported as crashed plus an error. -/
def fireKillTimeout (s : ProcState) : ProcState × List PEvent :=
  if s.processAttached then
    let (s1, ev1) := emitStatus s ServiceStatus.crashed (some none)
    (s1, ev1 ++ [PEvent.errorEv "Process did not terminate after SIGKILL"])
  else
    (s, [])

/-- Embedding of stopProcess: no-op without a process; otherwise emit
stopping, clear timers, then either hand off to the stop command (whose
exit later triggers the SIGTERM escalation) or send SIGINT immediately
and arm the SIGTERM escalation after SIGTERM_TIMEOUT. -/
def stopProcess (stop : Option String) (s : ProcState) (now : Nat) :
    ProcState × List PEvent × List Signal :=
  if s.processAttached = false then (s, [], [])
  else
    let (s1, ev1) := emitStatus s ServiceStatus.stopping none
    let s2 := clearAllTimeouts s1
    match stop with
    | some _ => (s2, ev1, [])
    | none =>
      let sigs := sendSignal s2 Signal.SIGINT
      ({ s2 with stopTimeout := some (now + SIGTERM_TIMEOUT, StopCb.toSigterm) },
        ev1, sigs)

/-- Handler run when the fire-and-forget stop command exits or fails to
spawn: escalate to SIGTERM if the supervised process is still alive and
stopping. -/
def onStopCommandExit (s : ProcState) (now : Nat) : ProcState × List Signal :=
  if s.status = ServiceStatus.stopping ∧ s.processAttached then
    escalateToSigterm s now
  else
    (s, [])

/-- Embedding of killProcess: no-op without a process; otherwise emit
stopping, clear timers, send SIGKILL at once and arm the terminal
check. -/
def killProcess (s : ProcState) (now : Nat) :
    ProcState × List PEvent × List Signal :=
  if s.processAttached = false then (s, [], [])
  else
    let (s1, ev1) := emitStatus s ServiceStatus.stopping none
    let s2 := clearAllTimeouts s1
    let sigs := sendSignal s2 Signal.SIGKILL
    ({ s2 with killTimeout := some (now + SIGKILL_TIMEOUT) }, ev1, sigs)

/-- Embedding of disposeProcess: clear timers and force-kill any
attached process without escalation. -/
def disposeProcess (s : ProcState) : ProcState × List Signal :=
  let s1 := clearAllTimeouts s
  if s1.processAttached then
    let sigs := sendSignal s1 Signal.SIGKILL
    ({ s1 with processAttached := false, pid := none }, sigs)
  else
    (s1, [])

/-- Timer slots of a supervisor. -/
inductive TimerSlot
  | readySlot
  | stopSlot
  | killSlot
deriving DecidableEq, Repr

/-- Armed timers of a state with their absolute fire times. -/
def timerCandidates (s : ProcState) : List (Nat × TimerSlot) :=
  (match s.readyTimeout with
    | some t => [(t, TimerSlot.readySlot)]
    | none => []) ++
  (match s.stopTimeout with
    | some (t, _) => [(t, TimerSlot.stopSlot)]
    | none => []) ++
  (match s.killTimeout with
    | some t => [(t, TimerSlot.killSlot)]
    | none => [])

/-- Earliest armed timer (first wins on ties). -/
def nextTimer (s : ProcState) : Option (Nat × TimerSlot) :=
  (timerCandidates s).foldl
    (fun best c =>
      match best with
      | none => some c
      | some b => if c.1 < b.1 then some c else some b)
    none

/-- Fire the earliest armed timer: clear its one-shot slot and run the
callback stored there, at the scheduled time. -/
def fireNext (s : ProcState) : ProcState × List PEvent × List Signal :=
  match nextTimer s with
  | none => (s, [], [])
  | some (_, TimerSlot.readySlot) =>
    let (s1, ev1) := fireReadyTimeout { s with readyTimeout := none }
    (s1, ev1, [])
  | some (t, TimerSlot.stopSlot) =>
    match s.stopTimeout with
    | some (_, StopCb.toSigterm) =>
      let s1 := { s with stopTimeout := none }
      if s1.processAttached then
        let (s2, sigs) := escalateToSigterm s1 t
        (s2, [], sigs)
      else (s1, [], [])
    | some (_, StopCb.toSigkill) =>
      let s1 := { s with stopTimeout := none }
      if s1.processAttached then
        let (s2, sigs) := escalateToSigkill s1 t
        (s2, [], sigs)
      else (s1, [], [])
    | none => (s, [], [])
  | some (_, TimerSlot.killSlot) =>
    let (s1, ev1) := fireKillTimeout { s with killTimeout := none }
    (s1, ev1, [])

/-- Supervisor state of a started service that is still starting, with a
process attached and no timer armed yet. -/
def sampleStartingState : ProcState :=
  { status := ServiceStatus.starting
    pid := some 42
    processAttached := true
    exitCode := none
    readyTimeout := none
    stopTimeout := none
    killTimeout := none }

/-- Supervisor state of a service in the middle of a graceful stop. -/
def sampleStoppingState : ProcState :=
  { sampleStartingState with status := ServiceStatus.stopping }

/-- Supervisor state of a running, ready service. -/
def sampleReadyState : ProcState :=
  { sampleStartingState with status := ServiceStatus.ready }

/-- Claim C4: on process exit, a supervisor in stopping transitions to
stopped recording the observed exit code, and a supervisor in starting
or ready transitions to crashed recording the observed exit code,
whatever the code is (zero included). -/
theorem handleProcessExit_stopping_or_crash (s : ProcState) (code : Option Int) :
    (s.status = ServiceStatus.stopping →
      (handleProcessExit s code).1.status = ServiceStatus.stopped ∧
      (handleProcessExit s code).1.exitCode = code ∧
      PEvent.statusChange ServiceStatus.stopped (some code) ∈
        (handleProcessExit s code).2) ∧
    ((s.status = ServiceStatus.starting ∨ s.status = ServiceStatus.ready) →
      (handleProcessExit s code).1.status = ServiceStatus.crashed ∧
      (handleProcessExit s code).1.exitCode = code ∧
      PEvent.statusChange ServiceStatus.crashed (some code) ∈
        (handleProcessExit s code).2) := by
  constructor
  · intro h
    simp [handleProcessExit, emitStatus, clearAllTimeouts, h]
  · intro h
    have hne : s.status ≠ ServiceStatus.stopping := by
      rcases h with h | h <;> simp [h]
    simp [handleProcessExit, emitStatus, clearAllTimeouts, hne]

/-- Witness for claim C4 at concrete states, with a zero exit code to
cover the regardless-of-zero part. -/
theorem handleProcessExit_stopping_or_crash_witness :
    (sampleStoppingState.status = ServiceStatus.stopping ∧
      (handleProcessExit sampleStoppingState (some 0)).1.status =
        ServiceStatus.stopped ∧
      (handleProcessExit sampleStoppingState (some 0)).1.exitCode = some 0) ∧
    ((sampleReadyState.status = ServiceStatus.starting ∨
        sampleReadyState.status = ServiceStatus.ready) ∧
      (handleProcessExit sampleReadyState (some 0)).1.status =
        ServiceStatus.crashed ∧
      (handleProcessExit sampleReadyState (some 0)).1.exitCode = some 0) :=
  ⟨⟨rfl,
    ((handleProcessExit_stopping_or_crash sampleStoppingState (some 0)).1 rfl).1,
    ((handleProcessExit_stopping_or_crash sampleStoppingState (some 0)).1 rfl).2.1⟩,
   ⟨Or.inr rfl,
    ((handleProcessExit_stopping_or_crash sampleReadyState (some 0)).2 (Or.inr rfl)).1,
    ((handleProcessExit_stopping_or_crash sampleReadyState (some 0)).2 (Or.inr rfl)).2.1⟩⟩

/-- Claim C6: while starting with a ready pattern configured, a stdout
chunk whose line matches the pattern transitions the supervisor to ready
immediately, emits the ready event, and arms no ready-delay timer. -/
theorem readyPattern_immediate_ready (s : ProcState) (pat : String → Bool)
    (data line : String) (readyDelay now : Nat)
    (hstat : s.status = ServiceStatus.starting)
    (hsplit : splitLines data = [line])
    (hmatch : pat line = true)
    (hrt : s.readyTimeout = none) :
    (handleStdout s data (some pat) readyDelay now).1.status =
      ServiceStatus.ready ∧
    PEvent.ready ∈ (handleStdout s data (some pat) readyDelay now).2 ∧
    (handleStdout s data (some pat) readyDelay now).1.readyTimeout = none := by
  simp [handleStdout, hsplit, handleReadyPattern, emitStatus, hstat, hmatch, hrt]

/-- Pattern test used to witness claim C6, standing for the compiled
ready regex of the spec example. -/
def listeningPattern : String → Bool :=
  fun c => c == "Listening on port 3000"

/-- Witness for claim C6 at the spec example line. -/
theorem readyPattern_immediate_ready_witness :
    (sampleStartingState.status = ServiceStatus.starting ∧
      splitLines "Listening on port 3000\n" = ["Listening on port 3000"] ∧
      listeningPattern "Listening on port 3000" = true ∧
      sampleStartingState.readyTimeout = none) ∧
    ((handleStdout sampleStartingState "Listening on port 3000\n"
        (some listeningPattern) 500 0).1.status = ServiceStatus.ready ∧
      PEvent.ready ∈ (handleStdout sampleStartingState "Listening on port 3000\n"
        (some listeningPattern) 500 0).2 ∧
      (handleStdout sampleStartingState "Listening on port 3000\n"
        (some listeningPattern) 500 0).1.readyTimeout = none) :=
  ⟨⟨rfl, by decide, rfl, rfl⟩,
    readyPattern_immediate_ready sampleStartingState listeningPattern
      "Listening on port 3000\n" "Listening on port 3000" 500 0
      rfl (by decide) rfl rfl⟩

/-- Claim C7 failing-input evaluation (code bug): with no ready pattern
configured and a supervisor still starting, a stderr-only chunk leaves
the supervisor state untouched, in particular the ready-delay timer is
never armed, while the very same chunk on stdout does arm it.  The
specification and the repository documentation both say the first
stdout or stderr output arms the timer. -/
theorem stderr_output_never_arms_ready_timer :
    (stderrDataHandler sampleStartingState "boot log\n").1 =
      sampleStartingState ∧
    (stderrDataHandler sampleStartingState "boot log\n").1.readyTimeout = none ∧
    (handleStdout sampleStartingState "boot log\n" none 500 0).1.readyTimeout =
      some 500 := by
  refine ⟨rfl, rfl, ?_⟩
  decide

/-- Claim C5: with no stop command, stop() sends SIGINT immediately and
arms the SIGTERM escalation 5000 ms out; the escalation sends SIGTERM
and arms SIGKILL 5000 ms later; that sends SIGKILL and arms the
terminal check 2000 ms later; if the process is still attached then the
supervisor transitions to crashed and emits an error. -/
theorem stop_without_command_ladder (s : ProcState) (t : Nat)
    (hatt : s.processAttached = true) :
    (stopProcess none s t).1.status = ServiceStatus.stopping ∧
    (stopProcess none s t).2.2 = [Signal.SIGINT] ∧
    nextTimer (stopProcess none s t).1 =
      some (t + 5000, TimerSlot.stopSlot) ∧
    (fireNext (stopProcess none s t).1).2.2 = [Signal.SIGTERM] ∧
    nextTimer (fireNext (stopProcess none s t).1).1 =
      some (t + 5000 + 5000, TimerSlot.stopSlot) ∧
    (fireNext (fireNext (stopProcess none s t).1).1).2.2 = [Signal.SIGKILL] ∧
    nextTimer (fireNext (fireNext (stopProcess none s t).1).1).1 =
      some (t + 5000 + 5000 + 2000, TimerSlot.killSlot) ∧
    (fireNext (fireNext (fireNext (stopProcess none s t).1).1).1).1.status =
      ServiceStatus.crashed ∧
    PEvent.errorEv "Process did not terminate after SIGKILL" ∈
      (fireNext (fireNext (fireNext (stopProcess none s t).1).1).1).2.1 := by
  simp [stopProcess, emitStatus, clearAllTimeouts, sendSignal, hatt,
    nextTimer, timerCandidates, fireNext, escalateToSigterm, escalateToSigkill,
    fireKillTimeout, SIGTERM_TIMEOUT, SIGKILL_TIMEOUT]

/-- Witness for claim C5 at a concrete ready supervisor and time zero. -/
theorem stop_without_command_ladder_witness :
    sampleReadyState.processAttached = true ∧
    ((stopProcess none sampleReadyState 0).1.status = ServiceStatus.stopping ∧
      (stopProcess none sampleReadyState 0).2.2 = [Signal.SIGINT] ∧
      nextTimer (stopProcess none sampleReadyState 0).1 =
        some (0 + 5000, TimerSlot.stopSlot) ∧
      (fireNext (stopProcess none sampleReadyState 0).1).2.2 = [Signal.SIGTERM] ∧
      nextTimer (fireNext (stopProcess none sampleReadyState 0).1).1 =
        some (0 + 5000 + 5000, TimerSlot.stopSlot) ∧
      (fireNext (fireNext (stopProcess none sampleReadyState 0).1).1).2.2 =
        [Signal.SIGKILL] ∧
      nextTimer (fireNext (fireNext (stopProcess none sampleReadyState 0).1).1).1 =
        some (0 + 5000 + 5000 + 2000, TimerSlot.killSlot) ∧
      (fireNext (fireNext (fireNext
        (stopProcess none sampleReadyState 0).1).1).1).1.status =
        ServiceStatus.crashed ∧
      PEvent.errorEv "Process did not terminate after SIGKILL" ∈
        (fireNext (fireNext (fireNext
          (stopProcess none sampleReadyState 0).1).1).1).2.1) :=
  ⟨rfl, stop_without_command_ladder sampleReadyState 0 rfl⟩

/-!
Orchestrator: shallow embedding of the service-manager hook.  The
mutable maps and sets of createServiceManager become an explicit
orchestrator state; the UI store runtime entries are modelled by the
ServiceState shape it keeps per service; the file loggers are pure
out-of-scope I/O and are not modelled.  Starting a process records a
startCalled effect, and the synchronous statusChange listener wired in
setupProcessManager folds each emitted status event into the store
(every operation modelled here emits its status events at a single pid
value, the one the manager getter returns at emission time).
-/

/-- Store runtime state per service (the ServiceState interface); the
startedAt timestamp is modelled by its presence. -/
structure StoreEntry where
  status : ServiceStatus
  pid : Option Nat
  exitCode : Option Int
  startedAt : Bool
  waitingFor : List String
deriving DecidableEq, Repr

/-- Initial store runtime state from createInitialServiceRuntime. -/
def initialStoreEntry : StoreEntry :=
  { status := ServiceStatus.stopped
    pid := none
    exitCode := none
    startedAt := false
    waitingFor := [] }

/-- Partial update of a store entry (Partial ServiceState): absent
fields keep their value. -/
structure StoreUpdate where
  status : Option ServiceStatus := none
  pid : Option (Option Nat) := none
  exitCode : Option (Option Int) := none
  startedAt : Option Bool := none
  waitingFor : Option (List String) := none

/-- Merge of a partial update into an entry, from the object spread in
createUpdateServiceState. -/
def applyUpdate (e : StoreEntry) (u : StoreUpdate) : StoreEntry :=
  { status := u.status.getD e.status
    pid := u.pid.getD e.pid
    exitCode := u.exitCode.getD e.exitCode
    startedAt := u.startedAt.getD e.startedAt
    waitingFor := u.waitingFor.getD e.waitingFor }

/-- Embedding of updateServiceState: merge the update into the entry of
the service, or leave the store unchanged when the id is unknown. -/
def updateServiceState (store : List (String × StoreEntry)) (id : String)
    (u : StoreUpdate) : List (String × StoreEntry) :=
  if store.any (fun p => p.1 == id) then
    store.map (fun p => if p.1 == id then (p.1, applyUpdate p.2 u) else p)
  else store

/-- Configuration handed to the service manager; only the service list
is consulted by the orchestration logic modelled here. -/
structure Config where
  services : List ServiceConfig

/-- Lookup of a service config by id (config.services.find). -/
def findService (config : Config) (id : String) : Option ServiceConfig :=
  config.services.find? (fun s => s.id == id)

/-- Orchestrator state: supervisors keyed by id, the pending-autostart
set, and the external store runtime entries. -/
structure OrchState where
  managers : List (String × ProcState)
  pendingAutostart : List String
  store : List (String × StoreEntry)

/-- Lookup of a store entry. -/
def storeGet (store : List (String × StoreEntry)) (id : String) :
    Option StoreEntry :=
  (store.find? (fun p => p.1 == id)).map Prod.snd

/-- Lookup of a managed supervisor. -/
def mgrGet (managers : List (String × ProcState)) (id : String) :
    Option ProcState :=
  (managers.find? (fun p => p.1 == id)).map Prod.snd

/-- Readiness of one dependency as the store reports it: a missing
entry counts as not ready (the optional-chaining comparison in the
source). -/
def readyIn (store : List (String × StoreEntry)) (depId : String) : Bool :=
  match storeGet store depId with
  | some e => e.status == ServiceStatus.ready
  | none => false

/-- Embedding of areAllDependenciesReady. -/
def areAllDependenciesReady (id : String) (config : Config)
    (store : List (String × StoreEntry)) : Bool :=
  match findService config id with
  | none => true
  | some sc =>
    if sc.dependsOn.isEmpty then true
    else sc.dependsOn.all (fun depId => readyIn store depId)

/-- Embedding of getWaitingDependencies: the declared dependencies not
currently ready. -/
def getWaitingDependencies (id : String) (config : Config)
    (store : List (String × StoreEntry)) : List String :=
  match findService config id with
  | none => []
  | some sc => sc.dependsOn.filter (fun depId => !(readyIn store depId))

/-- Observable orchestrator effects: invocations of a supervisor
start(). -/
inductive OrchEffect
  | startCalled (id : String)
deriving DecidableEq, Repr

/-- Store update performed by the statusChange listener wired in
setupProcessManager. -/
def statusChangeUpdate (status : ServiceStatus) (exitCode : Option (Option Int))
    (pidNow : Option Nat) : StoreUpdate :=
  { status := some status
    exitCode := some (exitCode.getD none)
    pid := some pidNow
    startedAt := some (status == ServiceStatus.starting) }

/-- Fold the status events emitted by one supervisor operation into the
store through the statusChange listener. -/
def applyStatusEvents (id : String) (pidAtEmit : Option Nat)
    (store : List (String × StoreEntry)) (evs : List PEvent) :
    List (String × StoreEntry) :=
  evs.foldl
    (fun st ev =>
      match ev with
      | PEvent.statusChange st0 ec =>
        updateServiceState st id (statusChangeUpdate st0 ec pidAtEmit)
      | _ => st)
    store

/-- In-place update of a managed supervisor state. -/
def mgrSet (managers : List (String × ProcState)) (id : String)
    (ps : ProcState) : List (String × ProcState) :=
  managers.map (fun p => if p.1 == id then (id, ps) else p)

/-- The orchestrator invoking manager?.start(): no-op when no manager
exists; otherwise run startProcess, fold its status events into the
store (the single starting event is emitted before the pid is stored,
so the listener reads the pre-attach pid), and record the start call. -/
def managerStartOp (orch : OrchState) (id : String) (spawnPid : Option Nat) :
    OrchState × List OrchEffect :=
  match mgrGet orch.managers id with
  | none => (orch, [])
  | some ps =>
    let (ps', evs) := startProcess ps spawnPid
    let store' := applyStatusEvents id ps.pid orch.store evs
    ({ orch with managers := mgrSet orch.managers id ps', store := store' },
      [OrchEffect.startCalled id])

/-- Embedding of setupProcessManager: none for an unknown service id;
otherwise ensure a (lazily created) supervisor exists.  The listener
wiring is implicit in the operation embeddings; the file logger is
out-of-scope I/O. -/
def setupProcessManager (config : Config) (orch : OrchState) (id : String) :
    Option OrchState :=
  match findService config id with
  | none => none
  | some _ =>
    if orch.managers.any (fun p => p.1 == id) then some orch
    else some { orch with managers := orch.managers ++ [(id, initialProcState)] }

/-- Embedding of startServiceInternal: ensure the supervisor, then
either mark the service Waiting (recording the not-ready dependencies
and adding it to pendingAutostart, with no spawn) or start it. -/
def startServiceInternal (config : Config) (orch : OrchState) (id : String)
    (spawnPid : Option Nat) : OrchState × List OrchEffect :=
  match setupProcessManager config orch id with
  | none => (orch, [])
  | some orch1 =>
    if areAllDependenciesReady id config orch1.store = false then
      let waiting := getWaitingDependencies id config orch1.store
      let store' := updateServiceState orch1.store id
        { status := some ServiceStatus.waiting, waitingFor := some waiting }
      ({ orch1 with
          store := store'
          pendingAutostart := jsSetAdd orch1.pendingAutostart id }, [])
    else
      managerStartOp orch1 id spawnPid

/-- Body of the checkPendingAutostart loop for one pending id. -/
def cpStep (config : Config) (pids : String → Option Nat)
    (acc : OrchState × List OrchEffect) (serviceId : String) :
    OrchState × List OrchEffect :=
  let (o, effs) := acc
  if areAllDependenciesReady serviceId config o.store then
    let o1 := { o with
      pendingAutostart := o.pendingAutostart.filter (fun x => x ≠ serviceId) }
    let (o2, effs2) := managerStartOp o1 serviceId (pids serviceId)
    (o2, effs ++ effs2)
  else
    let waiting := getWaitingDependencies serviceId config o.store
    let upd : StoreUpdate := { waitingFor := some waiting }
    ({ o with store := updateServiceState o.store serviceId upd }, effs)

/-- Embedding of checkPendingAutostart, run whenever any supervisor
emits ready: scan the pending set; start (and unpend) every id whose
dependencies are now all ready, refresh waitingFor for the rest. -/
def checkPendingAutostart (config : Config) (orch : OrchState)
    (pids : String → Option Nat) : OrchState × List OrchEffect :=
  orch.pendingAutostart.foldl (cpStep config pids) (orch, [])

/-- Embedding of the stopService callback: delegate to the matching
supervisor if one exists (the supervisor stop uses the stop command of
its own config), folding emitted status events into the store. -/
def stopServiceOp (config : Config) (orch : OrchState) (id : String)
    (now : Nat) : OrchState × List Signal :=
  match mgrGet orch.managers id with
  | none => (orch, [])
  | some ps =>
    match findService config id with
    | none => (orch, [])
    | some sc =>
      let (ps', evs, sigs) := stopProcess sc.stop ps now
      let store' := applyStatusEvents id ps.pid orch.store evs
      ({ orch with managers := mgrSet orch.managers id ps', store := store' },
        sigs)

/-- Embedding of the killService callback: delegate to the matching
supervisor if one exists. -/
def killServiceOp (orch : OrchState) (id : String) (now : Nat) :
    OrchState × List Signal :=
  match mgrGet orch.managers id with
  | none => (orch, [])
  | some ps =>
    let (ps', evs, sigs) := killProcess ps now
    let store' := applyStatusEvents id ps.pid orch.store evs
    ({ orch with managers := mgrSet orch.managers id ps', store := store' },
      sigs)

/-! Lemmas on the store and manager association lists. -/

theorem map_congr_mem {α β : Type} {f g : α → β} :
    ∀ l : List α, (∀ x ∈ l, f x = g x) → l.map f = l.map g := by
  intro l
  induction l with
  | nil => intro _; rfl
  | cons a as ih =>
    intro h
    simp only [List.map_cons, h a (List.mem_cons_self a as),
      ih (fun x hx => h x (List.mem_cons_of_mem _ hx))]

theorem assoc_find?_mapIf {α : Type} (id : String) (V : String × α → α) :
    ∀ (m : List (String × α)) (x : String),
      (m.map (fun p => if p.1 == id then (p.1, V p) else p)).find?
          (fun p => p.1 == x) =
        (m.find? (fun p => p.1 == x)).map
          (fun p => if p.1 == id then (p.1, V p) else p) := by
  intro m x
  induction m with
  | nil => rfl
  | cons p rest ih =>
    have hkey : ((if p.1 == id then (p.1, V p) else p) : String × α).1 = p.1 := by
      by_cases h : (p.1 == id) = true <;> simp [h]
    by_cases hpx : (p.1 == x) = true
    · rw [List.map_cons,
        @List.find?_cons_of_pos (String × α) (fun q => q.1 == x) _ _
          (by simp only [hkey]; exact hpx),
        @List.find?_cons_of_pos (String × α) (fun q => q.1 == x) p rest hpx]
      simp
    · rw [List.map_cons,
        @List.find?_cons_of_neg (String × α) (fun q => q.1 == x) _ _
          (by simp only [hkey]; exact hpx),
        @List.find?_cons_of_neg (String × α) (fun q => q.1 == x) p rest hpx]
      exact ih

theorem updateServiceState_eq_mapIf (store : List (String × StoreEntry))
    (id : String) (u : StoreUpdate)
    (hany : store.any (fun p => p.1 == id) = true) :
    updateServiceState store id u =
      store.map (fun p =>
        if p.1 == id then (p.1, applyUpdate p.2 u) else p) := by
  unfold updateServiceState
  rw [if_pos hany]

theorem storeGet_update_self (store : List (String × StoreEntry)) (id : String)
    (u : StoreUpdate) :
    storeGet (updateServiceState store id u) id =
      (storeGet store id).map (fun e => applyUpdate e u) := by
  by_cases hany : store.any (fun p => p.1 == id) = true
  · rw [updateServiceState_eq_mapIf store id u hany]
    unfold storeGet
    rw [assoc_find?_mapIf id (fun p => applyUpdate p.2 u) store id]
    rcases hf : store.find? (fun p => p.1 == id) with _ | p
    · rw [hf]; rfl
    · rw [hf]
      have hp := List.find?_some hf
      simp only at hp
      have hpe : p.1 = id := by simpa using hp
      simp [hpe]
  · unfold updateServiceState
    rw [if_neg hany]
    have hfn : store.find? (fun p => p.1 == id) = none := by
      rw [List.find?_eq_none]
      intro p hp hc
      exact hany (List.any_eq_true.mpr ⟨p, hp, hc⟩)
    unfold storeGet
    rw [hfn]
    rfl

theorem storeGet_update_other (store : List (String × StoreEntry)) (id x : String)
    (u : StoreUpdate) (hx : x ≠ id) :
    storeGet (updateServiceState store id u) x = storeGet store x := by
  by_cases hany : store.any (fun p => p.1 == id) = true
  · rw [updateServiceState_eq_mapIf store id u hany]
    unfold storeGet
    rw [assoc_find?_mapIf id (fun p => applyUpdate p.2 u) store x]
    rcases hf : store.find? (fun p => p.1 == x) with _ | p
    · rw [hf]; rfl
    · rw [hf]
      have hp := List.find?_some hf
      simp only at hp
      have hpid : p.1 ≠ id := by
        have hpx : p.1 = x := by simpa using hp
        simp [hpx, hx]
      simp [hpid]
  · unfold updateServiceState
    rw [if_neg hany]

theorem mgrSet_eq_mapIf (m : List (String × ProcState)) (id : String)
    (ps : ProcState) :
    mgrSet m id ps = m.map (fun p => if p.1 == id then (p.1, ps) else p) := by
  unfold mgrSet
  apply map_congr_mem
  intro p _
  by_cases h : (p.1 == id) = true
  · have : p.1 = id := by simpa using h
    simp [h, this]
  · simp [h]

theorem mgrGet_set_other (m : List (String × ProcState)) (id x : String)
    (ps : ProcState) (hx : x ≠ id) :
    mgrGet (mgrSet m id ps) x = mgrGet m x := by
  rw [mgrSet_eq_mapIf]
  unfold mgrGet
  rw [assoc_find?_mapIf id (fun _ => ps) m x]
  rcases hf : m.find? (fun p => p.1 == x) with _ | p
  · rw [hf]; rfl
  · rw [hf]
    have hp := List.find?_some hf
    simp only at hp
    have hpid : p.1 ≠ id := by
      have hpx : p.1 = x := by simpa using hp
      simp [hpx, hx]
    simp [hpid]

theorem map_eq_self_of {α : Type} {f : α → α} :
    ∀ l : List α, (∀ x ∈ l, f x = x) → l.map f = l := by
  intro l
  induction l with
  | nil => intro _; rfl
  | cons a as ih =>
    intro h
    simp only [List.map_cons, h a (List.mem_cons_self a as),
      ih (fun x hx => h x (List.mem_cons_of_mem _ hx))]

theorem mgrSet_self (m : List (String × ProcState)) (id : String)
    (ps : ProcState) (hnd : (m.map Prod.fst).Nodup)
    (h : mgrGet m id = some ps) : mgrSet m id ps = m := by
  unfold mgrGet at h
  unfold mgrSet
  induction m with
  | nil => simp at h
  | cons p rest ih =>
    by_cases hp : p.1 == id
    · have hpid : p.1 = id := by simpa using hp
      simp only [List.find?, hp] at h
      simp only [Option.map_some', Option.some_inj] at h
      have hrest : rest.map (fun q => if q.1 == id then (id, ps) else q) = rest := by
        apply map_eq_self_of
        intro q hq
        have hqid : q.1 ≠ id := by
          intro he
          simp only [List.map_cons, List.nodup_cons] at hnd
          exact hnd.1 (hpid ▸ he ▸ List.mem_map_of_mem Prod.fst hq)
        rw [if_neg (by simpa using hqid)]
      simp only [List.map_cons, if_pos hp, hrest]
      rw [← hpid, ← h]
    · simp only [Bool.not_eq_true] at hp
      simp only [List.find?, hp] at h
      have hcond : ¬ ((p.1 == id) = true) := by
        rw [hp]
        exact Bool.false_ne_true
      simp only [List.map_cons, if_neg hcond]
      rw [ih (by simp only [List.map_cons, List.nodup_cons] at hnd; exact hnd.2) h]

/-! Readiness preservation and congruence lemmas. -/

theorem readyIn_update_status_none (store : List (String × StoreEntry))
    (id : String) (u : StoreUpdate) (hust : u.status = none) (x : String) :
    readyIn (updateServiceState store id u) x = readyIn store x := by
  by_cases hx : x = id
  · subst hx
    unfold readyIn
    rw [storeGet_update_self]
    rcases storeGet store x with _ | e
    · rfl
    · simp [applyUpdate, hust]
  · unfold readyIn
    rw [storeGet_update_other store id x u hx]

theorem readyIn_update_nonready (store : List (String × StoreEntry))
    (id : String) (u : StoreUpdate) (st : ServiceStatus)
    (hust : u.status = some st) (hst : st ≠ ServiceStatus.ready)
    (hold : readyIn store id = false) (x : String) :
    readyIn (updateServiceState store id u) x = readyIn store x := by
  by_cases hx : x = id
  · subst hx
    unfold readyIn at hold ⊢
    rw [storeGet_update_self]
    rcases hsg : storeGet store x with _ | e
    · rfl
    · rw [hsg] at hold
      simp only at hold
      show ((applyUpdate e u).status == ServiceStatus.ready) =
        (e.status == ServiceStatus.ready)
      rw [hold]
      simp [applyUpdate, hust, hst]
  · unfold readyIn
    rw [storeGet_update_other store id x u hx]

theorem areAllDeps_congr (x : String) (config : Config)
    {st1 st2 : List (String × StoreEntry)}
    (h : ∀ d, readyIn st1 d = readyIn st2 d) :
    areAllDependenciesReady x config st1 = areAllDependenciesReady x config st2 := by
  unfold areAllDependenciesReady
  have hfe : (fun depId => readyIn st1 depId) = fun depId => readyIn st2 depId :=
    funext h
  rw [hfe]

theorem getWaiting_congr (x : String) (config : Config)
    {st1 st2 : List (String × StoreEntry)}
    (h : ∀ d, readyIn st1 d = readyIn st2 d) :
    getWaitingDependencies x config st1 = getWaitingDependencies x config st2 := by
  unfold getWaitingDependencies
  have hfe : (fun depId => !(readyIn st1 depId)) = fun depId => !(readyIn st2 depId) := by
    funext d
    rw [h d]
  rw [hfe]

/-! Reduction lemmas for one reconciliation step. -/

theorem startProcess_spawns {ps : ProcState} (h : ps.processAttached = false)
    (pid : Option Nat) :
    startProcess ps pid =
      ({ ps with
          status := ServiceStatus.starting
          processAttached := true
          pid := pid },
        [PEvent.statusChange ServiceStatus.starting none]) := by
  unfold startProcess emitStatus
  rw [h]
  simp

theorem managerStartOp_spawns {o : OrchState} {id : String} {ps : ProcState}
    (hmgr : mgrGet o.managers id = some ps) (hatt : ps.processAttached = false)
    (pid : Option Nat) :
    managerStartOp o id pid =
      ({ o with
          managers := mgrSet o.managers id
            { ps with
                status := ServiceStatus.starting
                processAttached := true
                pid := pid }
          store := updateServiceState o.store id
            (statusChangeUpdate ServiceStatus.starting none ps.pid) },
        [OrchEffect.startCalled id]) := by
  unfold managerStartOp
  simp only [hmgr, startProcess_spawns hatt]
  rfl

theorem cpStep_blocked_eq {config : Config} {pids : String → Option Nat}
    {o : OrchState} {effs : List OrchEffect} {p : String}
    (hr : areAllDependenciesReady p config o.store = false) :
    cpStep config pids (o, effs) p =
      ({ o with store := updateServiceState o.store p ({ waitingFor := some (getWaitingDependencies p config o.store) } : StoreUpdate) }, effs) := by
  simp only [cpStep]
  rw [hr]
  simp

theorem cpStep_ready_eq {config : Config} {pids : String → Option Nat}
    {o : OrchState} {effs : List OrchEffect} {p : String} {ps : ProcState}
    (hr : areAllDependenciesReady p config o.store = true)
    (hmgr : mgrGet o.managers p = some ps) (hatt : ps.processAttached = false) :
    cpStep config pids (o, effs) p =
      ({ o with
          pendingAutostart := o.pendingAutostart.filter (fun x => x ≠ p)
          managers := mgrSet o.managers p
            { ps with
                status := ServiceStatus.starting
                processAttached := true
                pid := pids p }
          store := updateServiceState o.store p
            (statusChangeUpdate ServiceStatus.starting none ps.pid) },
        effs ++ [OrchEffect.startCalled p]) := by
  simp only [cpStep]
  rw [hr]
  simp only [if_pos rfl]
  have hmgr1 : mgrGet (OrchState.managers { o with
      pendingAutostart := o.pendingAutostart.filter (fun x => x ≠ p) }) p = some ps := hmgr
  rw [managerStartOp_spawns hmgr1 hatt (pids p)]
  simp

/-- Main induction behind the reconciliation pass: relative to the
pre-scan store S and manager map M, every pending id whose dependencies
are all ready (judged against S) is removed from the pending set and its
start is called, and every still-blocked pending id stays pending with
its waitingFor list refreshed. -/
theorem cp_go {config : Config} {pids : String → Option Nat}
    {S : List (String × StoreEntry)} {M : List (String × ProcState)} :
    ∀ (rest : List String) (o : OrchState) (effs : List OrchEffect),
      rest.Nodup →
      (∀ d, readyIn o.store d = readyIn S d) →
      (∀ q ∈ rest, storeGet o.store q = storeGet S q) →
      (∀ q ∈ rest, mgrGet o.managers q = mgrGet M q) →
      (∀ q ∈ rest, q ∈ o.pendingAutostart) →
      (∀ q ∈ rest, ∃ ps, mgrGet M q = some ps ∧ ps.processAttached = false) →
      (∀ q ∈ rest, readyIn S q = false) →
      (∀ d, readyIn (List.foldl (cpStep config pids) (o, effs) rest).1.store d =
        readyIn S d) ∧
      (∀ x, x ∉ rest →
        storeGet (List.foldl (cpStep config pids) (o, effs) rest).1.store x =
          storeGet o.store x) ∧
      (∀ x, x ∉ rest →
        (x ∈ (List.foldl (cpStep config pids) (o, effs) rest).1.pendingAutostart ↔
          x ∈ o.pendingAutostart)) ∧
      (∃ tail, (List.foldl (cpStep config pids) (o, effs) rest).2 = effs ++ tail) ∧
      (∀ p ∈ rest,
        (areAllDependenciesReady p config S = true →
          p ∉ (List.foldl (cpStep config pids) (o, effs) rest).1.pendingAutostart ∧
          OrchEffect.startCalled p ∈ (List.foldl (cpStep config pids) (o, effs) rest).2) ∧
        (areAllDependenciesReady p config S = false →
          p ∈ (List.foldl (cpStep config pids) (o, effs) rest).1.pendingAutostart ∧
          storeGet (List.foldl (cpStep config pids) (o, effs) rest).1.store p =
            (storeGet S p).map (fun e => applyUpdate e ({ waitingFor := some (getWaitingDependencies p config S) } : StoreUpdate)))) := by
  intro rest
  induction rest with
  | nil =>
    intro o effs _ hready _ _ _ _ _
    simp only [List.foldl_nil]
    refine ⟨hready, ?_, ?_, ⟨[], by simp⟩, ?_⟩
    · intro x hx
      trivial
    · intro x hx
      trivial
    · intro p hp
      exact absurd hp (List.not_mem_nil p)
  | cons p rest' ih =>
    intro o effs hnd hready hentry hmgr hpend hmgrM hnotready
    simp only [List.foldl_cons]
    have hr_eq : areAllDependenciesReady p config o.store =
        areAllDependenciesReady p config S := areAllDeps_congr p config hready
    obtain ⟨ps, hpsM, hpsatt⟩ := hmgrM p (List.mem_cons_self p rest')
    have hpso : mgrGet o.managers p = some ps :=
      (hmgr p (List.mem_cons_self p rest')).trans hpsM
    have hndtail : rest'.Nodup := (List.nodup_cons.mp hnd).2
    have hpnotin : p ∉ rest' := (List.nodup_cons.mp hnd).1
    have holdp : readyIn o.store p = false :=
      (hready p).trans (hnotready p (List.mem_cons_self p rest'))
    cases hrS : areAllDependenciesReady p config S with
    | true =>
      have hro : areAllDependenciesReady p config o.store = true := hr_eq.trans hrS
      rw [cpStep_ready_eq hro hpso hpsatt]
      have hA2 : ∀ d, readyIn (updateServiceState o.store p
          (statusChangeUpdate ServiceStatus.starting none ps.pid)) d = readyIn S d :=
        fun d => (readyIn_update_nonready o.store p _ ServiceStatus.starting rfl
          (by decide) holdp d).trans (hready d)
      have hih := ih ({ o with
          pendingAutostart := o.pendingAutostart.filter (fun x => x ≠ p)
          managers := mgrSet o.managers p
            { ps with
                status := ServiceStatus.starting
                processAttached := true
                pid := pids p }
          store := updateServiceState o.store p
            (statusChangeUpdate ServiceStatus.starting none ps.pid) })
        (effs ++ [OrchEffect.startCalled p]) hndtail hA2
        (fun q hq => (storeGet_update_other o.store p q _
            (fun he => hpnotin (he ▸ hq))).trans
          (hentry q (List.mem_cons_of_mem _ hq)))
        (fun q hq => (mgrGet_set_other o.managers p q _
            (fun he => hpnotin (he ▸ hq))).trans
          (hmgr q (List.mem_cons_of_mem _ hq)))
        (fun q hq => List.mem_filter.mpr
          ⟨hpend q (List.mem_cons_of_mem _ hq), by
            have hqp : q ≠ p := fun he => hpnotin (he ▸ hq)
            simp [hqp]⟩)
        (fun q hq => hmgrM q (List.mem_cons_of_mem _ hq))
        (fun q hq => hnotready q (List.mem_cons_of_mem _ hq))
      obtain ⟨ihA, ihB, ihC, ⟨tail, ihD⟩, ihE⟩ := hih
      refine ⟨ihA, ?_, ?_, ?_, ?_⟩
      · intro x hx
        have hxr : x ∉ rest' := fun h => hx (List.mem_cons_of_mem _ h)
        have hxp : x ≠ p := fun he => hx (he ▸ List.mem_cons_self p rest')
        exact (ihB x hxr).trans (storeGet_update_other o.store p x _ hxp)
      · intro x hx
        have hxr : x ∉ rest' := fun h => hx (List.mem_cons_of_mem _ h)
        have hxp : x ≠ p := fun he => hx (he ▸ List.mem_cons_self p rest')
        rw [ihC x hxr]
        show x ∈ o.pendingAutostart.filter (fun y => y ≠ p) ↔ _
        rw [List.mem_filter]
        simp [hxp]
      · exact ⟨[OrchEffect.startCalled p] ++ tail, by rw [ihD, List.append_assoc]⟩
      · intro q hq
        rcases List.mem_cons.mp hq with rfl | hq2
        · constructor
          · intro _
            constructor
            · intro hmem
              have := (ihC q hpnotin).mp hmem
              rw [List.mem_filter] at this
              simp at this
            · rw [ihD]
              exact List.mem_append.mpr (Or.inl (List.mem_append.mpr (Or.inr
                (List.mem_singleton.mpr rfl))))
          · intro hfalse
            rw [hrS] at hfalse
            exact absurd hfalse (by simp)
        · exact ihE q hq2
    | false =>
      have hro : areAllDependenciesReady p config o.store = false := hr_eq.trans hrS
      rw [cpStep_blocked_eq hro]
      have hwf_eq : getWaitingDependencies p config o.store =
          getWaitingDependencies p config S := getWaiting_congr p config hready
      have hA2 : ∀ d, readyIn (updateServiceState o.store p
          ({ waitingFor := some (getWaitingDependencies p config o.store) } :
            StoreUpdate)) d = readyIn S d :=
        fun d => (readyIn_update_status_none o.store p _ rfl d).trans (hready d)
      have hih := ih ({ o with store := updateServiceState o.store p ({ waitingFor := some (getWaitingDependencies p config o.store) } : StoreUpdate) })
        effs hndtail hA2
        (fun q hq => (storeGet_update_other o.store p q _
            (fun he => hpnotin (he ▸ hq))).trans
          (hentry q (List.mem_cons_of_mem _ hq)))
        (fun q hq => hmgr q (List.mem_cons_of_mem _ hq))
        (fun q hq => hpend q (List.mem_cons_of_mem _ hq))
        (fun q hq => hmgrM q (List.mem_cons_of_mem _ hq))
        (fun q hq => hnotready q (List.mem_cons_of_mem _ hq))
      obtain ⟨ihA, ihB, ihC, ⟨tail, ihD⟩, ihE⟩ := hih
      refine ⟨ihA, ?_, ?_, ⟨tail, ihD⟩, ?_⟩
      · intro x hx
        have hxr : x ∉ rest' := fun h => hx (List.mem_cons_of_mem _ h)
        have hxp : x ≠ p := fun he => hx (he ▸ List.mem_cons_self p rest')
        exact (ihB x hxr).trans (storeGet_update_other o.store p x _ hxp)
      · intro x hx
        have hxr : x ∉ rest' := fun h => hx (List.mem_cons_of_mem _ h)
        exact ihC x hxr
      · intro q hq
        rcases List.mem_cons.mp hq with rfl | hq2
        · constructor
          · intro htrue
            rw [hrS] at htrue
            exact absurd htrue (by simp)
          · intro _
            constructor
            · exact (ihC q hpnotin).mpr (hpend q (List.mem_cons_self q rest'))
            · rw [ihB q hpnotin]
              rw [storeGet_update_self]
              rw [hwf_eq, hentry q (List.mem_cons_self q rest')]
        · exact ihE q hq2

/-- Reconciliation specification, instantiated at the pre-scan state:
readiness is judged against the store as it is when the scan starts. -/
theorem checkPendingAutostart_spec (config : Config) (orch : OrchState)
    (pids : String → Option Nat)
    (hnd : orch.pendingAutostart.Nodup)
    (hmgrM : ∀ q ∈ orch.pendingAutostart,
      ∃ ps, mgrGet orch.managers q = some ps ∧ ps.processAttached = false)
    (hnotready : ∀ q ∈ orch.pendingAutostart, readyIn orch.store q = false) :
    ∀ p ∈ orch.pendingAutostart,
      (areAllDependenciesReady p config orch.store = true →
        p ∉ (checkPendingAutostart config orch pids).1.pendingAutostart ∧
        OrchEffect.startCalled p ∈ (checkPendingAutostart config orch pids).2) ∧
      (areAllDependenciesReady p config orch.store = false →
        p ∈ (checkPendingAutostart config orch pids).1.pendingAutostart ∧
        storeGet (checkPendingAutostart config orch pids).1.store p =
          (storeGet orch.store p).map (fun e => applyUpdate e ({ waitingFor := some (getWaitingDependencies p config orch.store) } : StoreUpdate))) := by
  have h := @cp_go config pids orch.store orch.managers
    orch.pendingAutostart orch [] hnd (fun _ => rfl) (fun _ _ => rfl)
    (fun _ _ => rfl) (fun _ hq => hq) hmgrM hnotready
  unfold checkPendingAutostart
  exact h.2.2.2.2

/-- The blocked path of startServiceInternal: with a known service whose
dependencies are not all ready, the service is marked waiting with the
currently-not-ready dependencies, is added to pendingAutostart, and no
start is issued. -/
theorem startServiceInternal_blocked (config : Config) (orch : OrchState)
    (id : String) (spawnPid : Option Nat) (sc : ServiceConfig) (e : StoreEntry)
    (hsvc : findService config id = some sc)
    (hentry : storeGet orch.store id = some e)
    (hblk : areAllDependenciesReady id config orch.store = false) :
    (startServiceInternal config orch id spawnPid).2 = [] ∧
    storeGet (startServiceInternal config orch id spawnPid).1.store id =
      some { e with
        status := ServiceStatus.waiting
        waitingFor := getWaitingDependencies id config orch.store } ∧
    id ∈ (startServiceInternal config orch id spawnPid).1.pendingAutostart := by
  unfold startServiceInternal setupProcessManager
  simp only [hsvc]
  by_cases hex : orch.managers.any (fun p => p.1 == id) = true
  · rw [if_pos hex]
    simp only [hblk, eq_self_iff_true, if_true]
    refine ⟨trivial, ?_, self_mem_jsSetAdd _ _⟩
    rw [storeGet_update_self, hentry]
    simp [applyUpdate]
  · rw [if_neg hex]
    simp only [hblk, eq_self_iff_true, if_true]
    refine ⟨trivial, ?_, self_mem_jsSetAdd _ _⟩
    rw [storeGet_update_self, hentry]
    simp [applyUpdate]

/-- Claim C3: a startService on a service whose dependencies are not all
ready marks it Waiting with waitingFor equal to the currently-not-ready
dependency ids and adds it to pendingAutostart without spawning; and on
any ready event, the reconciliation pass removes from the pending set
and starts every pending id whose dependencies are now all ready, while
refreshing the waitingFor list of every still-blocked pending id. -/
theorem startService_waiting_and_reconciliation :
    (∀ (config : Config) (orch : OrchState) (id : String)
        (spawnPid : Option Nat) (sc : ServiceConfig) (e : StoreEntry),
      findService config id = some sc →
      storeGet orch.store id = some e →
      areAllDependenciesReady id config orch.store = false →
      (startServiceInternal config orch id spawnPid).2 = [] ∧
      storeGet (startServiceInternal config orch id spawnPid).1.store id =
        some { e with
          status := ServiceStatus.waiting
          waitingFor := getWaitingDependencies id config orch.store } ∧
      id ∈ (startServiceInternal config orch id spawnPid).1.pendingAutostart) ∧
    (∀ (config : Config) (orch : OrchState) (pids : String → Option Nat),
      orch.pendingAutostart.Nodup →
      (∀ q ∈ orch.pendingAutostart,
        ∃ ps, mgrGet orch.managers q = some ps ∧ ps.processAttached = false) →
      (∀ q ∈ orch.pendingAutostart, readyIn orch.store q = false) →
      ∀ p ∈ orch.pendingAutostart,
        (areAllDependenciesReady p config orch.store = true →
          p ∉ (checkPendingAutostart config orch pids).1.pendingAutostart ∧
          OrchEffect.startCalled p ∈ (checkPendingAutostart config orch pids).2) ∧
        (areAllDependenciesReady p config orch.store = false →
          p ∈ (checkPendingAutostart config orch pids).1.pendingAutostart ∧
          storeGet (checkPendingAutostart config orch pids).1.store p =
            (storeGet orch.store p).map (fun e => applyUpdate e ({ waitingFor := some (getWaitingDependencies p config orch.store) } : StoreUpdate)))) :=
  ⟨startServiceInternal_blocked, checkPendingAutostart_spec⟩

/-- Two-service scenario for the C3 witness: api has no dependencies,
web depends on api. -/
def c3Config : Config :=
  { services := [sampleService "api" [], sampleService "web" ["api"]] }

/-- Pre-start state: api is starting (not yet ready), web stopped with
no supervisor yet. -/
def c3Orch0 : OrchState :=
  { managers := [("api", { initialProcState with
        status := ServiceStatus.starting
        pid := some 7
        processAttached := true })]
    pendingAutostart := []
    store := [("api", { initialStoreEntry with status := ServiceStatus.starting }),
      ("web", initialStoreEntry)] }

/-- Post-ready state: api is ready, web pending with an idle supervisor
and no process attached. -/
def c3Orch1 : OrchState :=
  { managers := [("api", { initialProcState with
        status := ServiceStatus.ready
        pid := some 7
        processAttached := true }),
      ("web", initialProcState)]
    pendingAutostart := ["web"]
    store := [("api", { initialStoreEntry with status := ServiceStatus.ready }),
      ("web", { initialStoreEntry with
        status := ServiceStatus.waiting
        waitingFor := ["api"] })] }

theorem startService_waiting_and_reconciliation_witness :
    ((startServiceInternal c3Config c3Orch0 "web" none).2 = [] ∧
      storeGet (startServiceInternal c3Config c3Orch0 "web" none).1.store "web" =
        some { initialStoreEntry with
          status := ServiceStatus.waiting
          waitingFor := getWaitingDependencies "web" c3Config c3Orch0.store } ∧
      "web" ∈ (startServiceInternal c3Config c3Orch0 "web" none).1.pendingAutostart) ∧
    ("web" ∉ (checkPendingAutostart c3Config c3Orch1 (fun _ => some 9)).1.pendingAutostart ∧
      OrchEffect.startCalled "web" ∈ (checkPendingAutostart c3Config c3Orch1 (fun _ => some 9)).2) :=
  ⟨startService_waiting_and_reconciliation.1 c3Config c3Orch0 "web" none
      (sampleService "web" ["api"]) initialStoreEntry rfl (by decide)
      (by decide),
    (startService_waiting_and_reconciliation.2 c3Config c3Orch1 (fun _ => some 9)
      (by decide)
      (fun q hq => by
        have hqw : q = "web" := by
          have hq1 : q ∈ ["web"] := hq
          exact List.mem_singleton.mp hq1
        subst hqw
        exact ⟨initialProcState, by decide, by decide⟩)
      (by decide)
      "web" (by decide)).1 (by decide)⟩

/-- Claim C10: stopService and killService on a service that is Waiting
(start requested, supervisor present, no process attached) leave the
orchestrator state unchanged and produce no signal; and the service is
still started by the reconciliation pass once its dependencies are all
ready. -/
theorem stopKill_on_waiting_noop (config : Config) (orch : OrchState)
    (id : String) (now : Nat) (ps : ProcState) (sc : ServiceConfig)
    (e : StoreEntry)
    (hmgr : mgrGet orch.managers id = some ps)
    (hatt : ps.processAttached = false)
    (hnd : (orch.managers.map Prod.fst).Nodup)
    (hsvc : findService config id = some sc)
    (hentry : storeGet orch.store id = some e)
    (hwait : e.status = ServiceStatus.waiting)
    (hpend : id ∈ orch.pendingAutostart) :
    stopServiceOp config orch id now = (orch, []) ∧
    killServiceOp orch id now = (orch, []) ∧
    (∀ (o : OrchState) (pids : String → Option Nat),
      o.pendingAutostart = orch.pendingAutostart →
      o.pendingAutostart.Nodup →
      (∀ q ∈ o.pendingAutostart,
        ∃ ps2, mgrGet o.managers q = some ps2 ∧ ps2.processAttached = false) →
      (∀ q ∈ o.pendingAutostart, readyIn o.store q = false) →
      areAllDependenciesReady id config o.store = true →
      id ∉ (checkPendingAutostart config o pids).1.pendingAutostart ∧
      OrchEffect.startCalled id ∈ (checkPendingAutostart config o pids).2) := by
  have hsp : stopProcess sc.stop ps now = (ps, [], []) := by
    unfold stopProcess
    rw [if_pos hatt]
  have hkp : killProcess ps now = (ps, [], []) := by
    unfold killProcess
    rw [if_pos hatt]
  refine ⟨?_, ?_, ?_⟩
  · unfold stopServiceOp
    simp only [hmgr, hsvc, hsp, applyStatusEvents, List.foldl_nil]
    rw [mgrSet_self orch.managers id ps hnd hmgr]
  · unfold killServiceOp
    simp only [hmgr, hkp, applyStatusEvents, List.foldl_nil]
    rw [mgrSet_self orch.managers id ps hnd hmgr]
  · intro o pids hpe hnd2 hmgrM hnr hready
    exact (checkPendingAutostart_spec config o pids hnd2 hmgrM hnr id
      (hpe ▸ hpend)).1 hready

/-- Two-service scenario for the C10 witness: same dependency shape,
with web already pending and waiting for api. -/
def c10Config : Config :=
  { services := [sampleService "api" [], sampleService "web" ["api"]] }

/-- State at the moment stop or kill is requested: web is Waiting with
an idle supervisor, api still starting. -/
def c10Orch0 : OrchState :=
  { managers := [("api", { initialProcState with
        status := ServiceStatus.starting
        pid := some 7
        processAttached := true }),
      ("web", initialProcState)]
    pendingAutostart := ["web"]
    store := [("api", { initialStoreEntry with status := ServiceStatus.starting }),
      ("web", { initialStoreEntry with
        status := ServiceStatus.waiting
        waitingFor := ["api"] })] }

/-- Later state for the C10 witness, after api became ready, with the
same pending set. -/
def c10Orch1 : OrchState :=
  { managers := [("api", { initialProcState with
        status := ServiceStatus.ready
        pid := some 7
        processAttached := true }),
      ("web", initialProcState)]
    pendingAutostart := ["web"]
    store := [("api", { initialStoreEntry with status := ServiceStatus.ready }),
      ("web", { initialStoreEntry with
        status := ServiceStatus.waiting
        waitingFor := ["api"] })] }

theorem stopKill_on_waiting_noop_witness :
    stopServiceOp c10Config c10Orch0 "web" 1000 = (c10Orch0, []) ∧
    killServiceOp c10Orch0 "web" 1000 = (c10Orch0, []) ∧
    ("web" ∉ (checkPendingAutostart c10Config c10Orch1 (fun _ => some 11)).1.pendingAutostart ∧
      OrchEffect.startCalled "web" ∈ (checkPendingAutostart c10Config c10Orch1 (fun _ => some 11)).2) :=
  have h := stopKill_on_waiting_noop c10Config c10Orch0 "web" 1000
    initialProcState (sampleService "web" ["api"])
    { initialStoreEntry with
      status := ServiceStatus.waiting
      waitingFor := ["api"] }
    (by decide) (by decide) (by decide) rfl (by decide) (by decide) (by decide)
  ⟨h.1, h.2.1,
    h.2.2 c10Orch1 (fun _ => some 11) rfl (by decide)
      (fun q hq => by
        have hqw : q = "web" := by
          have hq1 : q ∈ ["web"] := hq
          exact List.mem_singleton.mp hq1
        subst hqw
        exact ⟨initialProcState, by decide, by decide⟩)
      (by decide) (by decide)⟩

/-! Event-loop embedding of stopAllAndWaitInternal.  The three timers it
creates are modelled as entries of a time-ordered queue: the main
timeout (timer id 0), the 100 ms polling interval (timer id 1, kept
across reschedules as setInterval keeps one id), and the 500 ms
post-kill grace timer (timer id 2).  Whether a given manager is running
(isManagerRunning: status neither stopped nor crashed) at a given
instant is supplied by an environment function, since process exits
happen outside this code. -/

inductive TimerKind
  | timeoutMain
  | tick
  | grace
deriving DecidableEq, Repr

structure QEntry where
  time : Nat
  eid : Nat
  kind : TimerKind
deriving DecidableEq, Repr

/-- Stable insertion into the time-sorted timer queue: a new timer goes
after every already scheduled timer whose time is not later, matching
creation-order firing of simultaneous timers. -/
def qInsert (e : QEntry) : List QEntry → List QEntry
  | [] => [e]
  | f :: rest =>
    if f.time ≤ e.time then f :: qInsert e rest else e :: f :: rest

/-- State of the pending timers and of the observable actions of one
stopAllAndWaitInternal call: kills issued by the timeout callback and
the times at which onComplete was invoked. -/
structure LoopState where
  queue : List QEntry
  cancelled : List Nat
  kills : List String
  completes : List Nat
deriving DecidableEq, Repr

/-- One event-loop step: fire (or skip, when cancelled) the earliest
pending timer.  The timeout callback clears the interval, kills every
manager still running, and schedules onComplete 500 ms later; an
interval tick completes (clearing both timers) when no manager is
running any more, and otherwise polls again 100 ms later; the grace
timer completes. -/
def loopStep (managers : List String) (running : Nat → String → Bool)
    (st : LoopState) : LoopState :=
  match st.queue with
  | [] => st
  | e :: rest =>
    if e.eid ∈ st.cancelled then { st with queue := rest }
    else
      match e.kind with
      | TimerKind.timeoutMain =>
        { st with
          queue := qInsert { time := e.time + 500, eid := 2, kind := TimerKind.grace } rest
          cancelled := st.cancelled ++ [1]
          kills := st.kills ++ managers.filter (fun id => running e.time id) }
      | TimerKind.tick =>
        if managers.any (fun id => running e.time id) then
          { st with queue :=
              qInsert { time := e.time + 100, eid := 1, kind := TimerKind.tick } rest }
        else
          { st with
            queue := rest
            cancelled := st.cancelled ++ [1, 0]
            completes := st.completes ++ [e.time] }
      | TimerKind.grace =>
        { st with queue := rest, completes := st.completes ++ [e.time] }

/-- Run the event loop until the fuel or the timer queue is exhausted. -/
def runLoop (managers : List String) (running : Nat → String → Bool) :
    Nat → LoopState → LoopState
  | 0, st => st
  | n + 1, st =>
    match st.queue with
    | [] => st
    | _ :: _ => runLoop managers running n (loopStep managers running st)

/-- Embedding of stopAllAndWaitInternal, called at instant 0: with no
running manager it invokes onComplete at once and sets no timer;
otherwise it stops every running manager (second component), arms the
timeout at timeoutMs and the polling interval at 100. -/
def stopAllAndWaitInit (managers : List String) (running : Nat → String → Bool)
    (timeoutMs : Nat) : LoopState × List String :=
  let runningManagers := managers.filter (fun id => running 0 id)
  if runningManagers.isEmpty then
    ({ queue := [], cancelled := [], kills := [], completes := [0] }, [])
  else
    let q0 := qInsert { time := timeoutMs, eid := 0, kind := TimerKind.timeoutMain } []
    let q1 := qInsert { time := 100, eid := 1, kind := TimerKind.tick } q0
    ({ queue := q1, cancelled := [], kills := [], completes := [] },
      runningManagers)

/-- Shorthand for the three concrete timers of stopAllAndWaitInternal. -/
def tickE (t : Nat) : QEntry := { time := t, eid := 1, kind := TimerKind.tick }

def toutE (w : Nat) : QEntry := { time := w, eid := 0, kind := TimerKind.timeoutMain }

def graceE (w : Nat) : QEntry := { time := w + 500, eid := 2, kind := TimerKind.grace }

/-- A finished loop: onComplete has run exactly once and no timer is
pending. -/
def DoneL (st : LoopState) : Prop :=
  st.completes.length = 1 ∧ st.queue = []

theorem runLoop_empty (m : List String) (r : Nat → String → Bool) (k : Nat)
    (st : LoopState) (h : st.queue = []) : runLoop m r k st = st := by
  cases k with
  | zero => rfl
  | succ n =>
    simp only [runLoop]
    rw [h]

theorem runLoop_add (m : List String) (r : Nat → String → Bool) (a b : Nat)
    (st : LoopState) :
    runLoop m r (a + b) st = runLoop m r b (runLoop m r a st) := by
  induction a generalizing st with
  | zero =>
    rw [Nat.zero_add]
    rfl
  | succ n ih =>
    rw [Nat.succ_add]
    cases hq : st.queue with
    | nil =>
      rw [runLoop_empty m r (n + b + 1) st hq, runLoop_empty m r (n + 1) st hq,
        runLoop_empty m r b st hq]
    | cons e rest =>
      have h1 : runLoop m r (n + b + 1) st = runLoop m r (n + b) (loopStep m r st) := by
        simp only [runLoop]
        rw [hq]
      have h2 : runLoop m r (n + 1) st = runLoop m r n (loopStep m r st) := by
        simp only [runLoop]
        rw [hq]
      rw [h1, h2, ih]

/-- Firing the main timeout with one pending tick: kill the running
managers, skip the now-cancelled tick, fire the 500 ms grace timer,
in three steps plus padding. -/
theorem runTimeoutFinal (m : List String) (r : Nat → String → Bool)
    (w t j : Nat) (hub : t ≤ w + 500) :
    runLoop m r (j + 4) (⟨[toutE w, tickE t], [], [], []⟩ : LoopState) =
      ⟨[], [1], m.filter (fun i => r w i), [w + 500]⟩ := by
  have hq : qInsert (graceE w) [tickE t] = [tickE t, graceE w] := by
    unfold qInsert
    simp only [tickE, graceE]
    rw [if_pos hub]
    rfl
  have s1 : loopStep m r (⟨[toutE w, tickE t], [], [], []⟩ : LoopState) =
      ⟨[tickE t, graceE w], [1], m.filter (fun i => r w i), []⟩ := by
    simp only [loopStep, toutE, List.not_mem_nil, if_false, List.nil_append]
    rw [← hq]
    rfl
  have s2 : loopStep m r (⟨[tickE t, graceE w], [1], m.filter (fun i => r w i), []⟩ : LoopState) =
      ⟨[graceE w], [1], m.filter (fun i => r w i), []⟩ := by
    simp [loopStep, tickE]
  have s3 : loopStep m r (⟨[graceE w], [1], m.filter (fun i => r w i), []⟩ : LoopState) =
      ⟨[], [1], m.filter (fun i => r w i), [w + 500]⟩ := by
    simp [loopStep, graceE]
  have e1 : runLoop m r (j + 4) (⟨[toutE w, tickE t], [], [], []⟩ : LoopState) =
      runLoop m r (j + 3) (loopStep m r (⟨[toutE w, tickE t], [], [], []⟩ : LoopState)) := rfl
  rw [e1, s1]
  have e2 : runLoop m r (j + 3) (⟨[tickE t, graceE w], [1], m.filter (fun i => r w i), []⟩ : LoopState) =
      runLoop m r (j + 2) (loopStep m r (⟨[tickE t, graceE w], [1], m.filter (fun i => r w i), []⟩ : LoopState)) := rfl
  rw [e2, s2]
  have e3 : runLoop m r (j + 2) (⟨[graceE w], [1], m.filter (fun i => r w i), []⟩ : LoopState) =
      runLoop m r (j + 1) (loopStep m r (⟨[graceE w], [1], m.filter (fun i => r w i), []⟩ : LoopState)) := rfl
  rw [e3, s3]
  exact runLoop_empty m r (j + 1) _ rfl

/-- Skipping a cancelled main timeout leaves a finished loop. -/
theorem doneSkipTimeout (m : List String) (r : Nat → String → Bool)
    (w c j : Nat) (cs : List Nat) (ks : List String) (h0 : 0 ∈ cs) :
    runLoop m r (j + 1) (⟨[toutE w], cs, ks, [c]⟩ : LoopState) =
      ⟨[], cs, ks, [c]⟩ := by
  have s : loopStep m r (⟨[toutE w], cs, ks, [c]⟩ : LoopState) =
      ⟨[], cs, ks, [c]⟩ := by
    simp [loopStep, toutE, h0]
  have e : runLoop m r (j + 1) (⟨[toutE w], cs, ks, [c]⟩ : LoopState) =
      runLoop m r j (loopStep m r (⟨[toutE w], cs, ks, [c]⟩ : LoopState)) := rfl
  rw [e, s]
  exact runLoop_empty m r j _ rfl

/-- Phase invariant while both the timeout and the polling interval are
live: nothing completed or cancelled yet, no kill issued, and the queue
holds exactly the timeout at w and the pending tick at t. -/
def InvA (w t : Nat) (st : LoopState) : Prop :=
  st.completes = [] ∧ st.cancelled = [] ∧ st.kills = [] ∧
    ((st.queue = [toutE w, tickE t] ∧ t ≤ w + 100) ∨
      (st.queue = [tickE t, toutE w] ∧ t < w))

/-- From a live phase, the loop is finished after enough steps: every
pending tick is at most 100 ms after the previous one, so the timeout
(or an earlier all-stopped poll) is reached within the fuel budget. -/
theorem progressA (m : List String) (r : Nat → String → Bool) :
    ∀ (n w t : Nat) (st : LoopState), InvA w t st → w ≤ t + 100 * n →
      DoneL (runLoop m r (n + 4) st) := by
  intro n
  induction n with
  | zero =>
    intro w t st hA hb
    rcases hA with ⟨h1, h2, h3, ⟨hq, hub⟩ | ⟨hq, hlt⟩⟩
    · obtain ⟨q, c, ks, cp⟩ := st
      dsimp only at h1 h2 h3 hq
      subst h1
      subst h2
      subst h3
      subst hq
      rw [runTimeoutFinal m r w t 0 (by omega)]
      exact ⟨rfl, rfl⟩
    · omega
  | succ k ih =>
    intro w t st hA hb
    rcases hA with ⟨h1, h2, h3, ⟨hq, hub⟩ | ⟨hq, hlt⟩⟩
    · obtain ⟨q, c, ks, cp⟩ := st
      dsimp only at h1 h2 h3 hq
      subst h1
      subst h2
      subst h3
      subst hq
      rw [runTimeoutFinal m r w t (k + 1) (by omega)]
      exact ⟨rfl, rfl⟩
    · obtain ⟨q, c, ks, cp⟩ := st
      dsimp only at h1 h2 h3 hq
      subst h1
      subst h2
      subst h3
      subst hq
      have estep : runLoop m r (k + 1 + 4) (⟨[tickE t, toutE w], [], [], []⟩ : LoopState) =
          runLoop m r (k + 4) (loopStep m r (⟨[tickE t, toutE w], [], [], []⟩ : LoopState)) := rfl
      rw [estep]
      by_cases hrun : m.any (fun i => r t i) = true
      · have s : loopStep m r (⟨[tickE t, toutE w], [], [], []⟩ : LoopState) =
            ⟨qInsert (tickE (t + 100)) [toutE w], [], [], []⟩ := by
          simp [loopStep, tickE, hrun]
        rw [s]
        by_cases hcmp : w ≤ t + 100
        · have hq2 : qInsert (tickE (t + 100)) [toutE w] = [toutE w, tickE (t + 100)] := by
            unfold qInsert
            simp only [tickE, toutE]
            rw [if_pos hcmp]
            rfl
          rw [hq2]
          exact ih w (t + 100) _ ⟨rfl, rfl, rfl, Or.inl ⟨rfl, by omega⟩⟩ (by omega)
        · have hq2 : qInsert (tickE (t + 100)) [toutE w] = [tickE (t + 100), toutE w] := by
            unfold qInsert
            simp only [tickE, toutE]
            rw [if_neg hcmp]
          rw [hq2]
          exact ih w (t + 100) _ ⟨rfl, rfl, rfl, Or.inr ⟨rfl, by omega⟩⟩ (by omega)
      · have s : loopStep m r (⟨[tickE t, toutE w], [], [], []⟩ : LoopState) =
            ⟨[toutE w], [1, 0], [], [t]⟩ := by
          simp [loopStep, tickE, hrun]
        rw [s]
        have e4 : k + 4 = k + 3 + 1 := rfl
        rw [e4, doneSkipTimeout m r w t (k + 3) [1, 0] [] (by simp)]
        exact ⟨rfl, rfl⟩

/-- Phase invariant after the timeout fired: the interval is cancelled,
the kills are recorded, and only the grace timer (possibly preceded by
a cancelled tick) is pending. -/
def InvB (m : List String) (r : Nat → String → Bool) (w : Nat)
    (st : LoopState) : Prop :=
  st.completes = [] ∧ st.cancelled = [1] ∧
    st.kills = m.filter (fun i => r w i) ∧
    ((∃ t, st.queue = [tickE t, graceE w]) ∨ st.queue = [graceE w])

/-- Phase invariant once onComplete has run: exactly one completion,
and any remaining timer is the cancelled main timeout. -/
def InvDone (st : LoopState) : Prop :=
  st.completes.length = 1 ∧
    (st.queue = [] ∨ ∃ w, st.queue = [toutE w] ∧ 0 ∈ st.cancelled)

/-- Global invariant of one stopAllAndWaitInternal call. -/
def InvLoop (m : List String) (r : Nat → String → Bool) (w : Nat)
    (st : LoopState) : Prop :=
  (∃ t, InvA w t st) ∨ InvB m r w st ∨ InvDone st

theorem loopStep_inv (m : List String) (r : Nat → String → Bool) (w : Nat)
    (st : LoopState) (h : InvLoop m r w st) :
    InvLoop m r w (loopStep m r st) := by
  rcases h with ⟨t, h1, h2, h3, ⟨hq, hub⟩ | ⟨hq, hlt⟩⟩ | ⟨h1, h2, h3, ⟨t, hq⟩ | hq⟩ | ⟨h1, hq | ⟨v, hq, hc⟩⟩
  · obtain ⟨q, c, ks, cp⟩ := st
    dsimp only at h1 h2 h3 hq
    subst h1
    subst h2
    subst h3
    subst hq
    have hq2 : qInsert (graceE w) [tickE t] = [tickE t, graceE w] := by
      unfold qInsert
      simp only [tickE, graceE]
      rw [if_pos (by omega)]
      rfl
    have s : loopStep m r (⟨[toutE w, tickE t], [], [], []⟩ : LoopState) =
        ⟨[tickE t, graceE w], [1], m.filter (fun i => r w i), []⟩ := by
      simp only [loopStep, toutE, List.not_mem_nil, if_false, List.nil_append]
      rw [← hq2]
      rfl
    rw [s]
    exact Or.inr (Or.inl ⟨rfl, rfl, rfl, Or.inl ⟨t, rfl⟩⟩)
  · obtain ⟨q, c, ks, cp⟩ := st
    dsimp only at h1 h2 h3 hq
    subst h1
    subst h2
    subst h3
    subst hq
    by_cases hrun : m.any (fun i => r t i) = true
    · have s : loopStep m r (⟨[tickE t, toutE w], [], [], []⟩ : LoopState) =
          ⟨qInsert (tickE (t + 100)) [toutE w], [], [], []⟩ := by
        simp [loopStep, tickE, hrun]
      rw [s]
      by_cases hcmp : w ≤ t + 100
      · have hq2 : qInsert (tickE (t + 100)) [toutE w] = [toutE w, tickE (t + 100)] := by
          unfold qInsert
          simp only [tickE, toutE]
          rw [if_pos hcmp]
          rfl
        rw [hq2]
        exact Or.inl ⟨t + 100, rfl, rfl, rfl, Or.inl ⟨rfl, by omega⟩⟩
      · have hq2 : qInsert (tickE (t + 100)) [toutE w] = [tickE (t + 100), toutE w] := by
          unfold qInsert
          simp only [tickE, toutE]
          rw [if_neg hcmp]
        rw [hq2]
        exact Or.inl ⟨t + 100, rfl, rfl, rfl, Or.inr ⟨rfl, by omega⟩⟩
    · have s : loopStep m r (⟨[tickE t, toutE w], [], [], []⟩ : LoopState) =
          ⟨[toutE w], [1, 0], [], [t]⟩ := by
        simp [loopStep, tickE, hrun]
      rw [s]
      exact Or.inr (Or.inr ⟨rfl, Or.inr ⟨w, rfl, by simp⟩⟩)
  · obtain ⟨q, c, ks, cp⟩ := st
    dsimp only at h1 h2 h3 hq
    subst h1
    subst h2
    subst hq
    have s : loopStep m r (⟨[tickE t, graceE w], [1], ks, []⟩ : LoopState) =
        ⟨[graceE w], [1], ks, []⟩ := by
      simp [loopStep, tickE]
    rw [s]
    exact Or.inr (Or.inl ⟨rfl, rfl, h3, Or.inr rfl⟩)
  · obtain ⟨q, c, ks, cp⟩ := st
    dsimp only at h1 h2 h3 hq
    subst h1
    subst h2
    subst hq
    have s : loopStep m r (⟨[graceE w], [1], ks, []⟩ : LoopState) =
        ⟨[], [1], ks, [w + 500]⟩ := by
      simp [loopStep, graceE]
    rw [s]
    exact Or.inr (Or.inr ⟨rfl, Or.inl rfl⟩)
  · obtain ⟨q, c, ks, cp⟩ := st
    dsimp only at h1 hq
    subst hq
    exact Or.inr (Or.inr ⟨h1, Or.inl rfl⟩)
  · obtain ⟨q, c, ks, cp⟩ := st
    dsimp only at h1 hq hc
    subst hq
    have s : loopStep m r (⟨[toutE v], c, ks, cp⟩ : LoopState) =
        ⟨[], c, ks, cp⟩ := by
      simp [loopStep, toutE, hc]
    rw [s]
    exact Or.inr (Or.inr ⟨h1, Or.inl rfl⟩)

theorem runLoop_inv (m : List String) (r : Nat → String → Bool) (w : Nat) :
    ∀ (n : Nat) (st : LoopState), InvLoop m r w st →
      InvLoop m r w (runLoop m r n st) := by
  intro n
  induction n with
  | zero =>
    intro st h
    exact h
  | succ k ih =>
    intro st h
    cases hq : st.queue with
    | nil =>
      rw [runLoop_empty m r (k + 1) st hq]
      exact h
    | cons e rest =>
      have estep : runLoop m r (k + 1) st = runLoop m r k (loopStep m r st) := by
        simp only [runLoop]
        rw [hq]
      rw [estep]
      exact ih _ (loopStep_inv m r w st h)

theorem invLoop_le_one (m : List String) (r : Nat → String → Bool) (w : Nat)
    (st : LoopState) (h : InvLoop m r w st) : st.completes.length ≤ 1 := by
  rcases h with ⟨t, h1, _⟩ | ⟨h1, _⟩ | ⟨h1, _⟩
  · rw [h1]
    exact Nat.zero_le 1
  · rw [h1]
    exact Nat.zero_le 1
  · rw [h1]

/-- The state as stopAllAndWaitInternal returns: either the empty call
completed at once, or both timers are live. -/
theorem stopAllAndWaitInit_inv (m : List String) (r : Nat → String → Bool)
    (w : Nat) : InvLoop m r w (stopAllAndWaitInit m r w).1 := by
  unfold stopAllAndWaitInit
  by_cases he : (m.filter (fun i => r 0 i)).isEmpty = true
  · rw [if_pos he]
    exact Or.inr (Or.inr ⟨rfl, Or.inl rfl⟩)
  · rw [if_neg he]
    by_cases hcmp : w ≤ 100
    · have hq2 : qInsert (tickE 100) [toutE w] = [toutE w, tickE 100] := by
        unfold qInsert
        simp only [tickE, toutE]
        rw [if_pos hcmp]
        rfl
      refine Or.inl ⟨100, rfl, rfl, rfl, Or.inl ⟨?_, by omega⟩⟩
      exact hq2
    · have hq2 : qInsert (tickE 100) [toutE w] = [tickE 100, toutE w] := by
        unfold qInsert
        simp only [tickE, toutE]
        rw [if_neg hcmp]
      refine Or.inl ⟨100, rfl, rfl, rfl, Or.inr ⟨?_, by omega⟩⟩
      exact hq2

/-- Enough fuel to settle a call: one tick per 100 ms of the timeout
plus the firing of the timeout, the skipped tick and the grace timer. -/
theorem stopAllAndWait_fuel (w : Nat) : w ≤ 100 + 100 * (w / 100) := by
  have h1 := Nat.div_add_mod w 100
  have h2 : w % 100 < 100 := Nat.mod_lt w (by norm_num)
  omega

/-- Claim C8: every stopAllAndWaitInternal call invokes its completion
callback exactly once, for every pattern of manager terminations: never
more than once at any fuel, and exactly once as soon as the loop has
run for timeoutMs / 100 + 4 steps (whether the managers all stopped
before the timeout or the timeout path with its forced kills ran). -/
theorem stopAllAndWait_completes_once (m : List String)
    (r : Nat → String → Bool) (w : Nat) :
    (∀ f, (runLoop m r f (stopAllAndWaitInit m r w).1).completes.length ≤ 1) ∧
    (∀ j, (runLoop m r (w / 100 + 4 + j) (stopAllAndWaitInit m r w).1).completes.length = 1) := by
  constructor
  · intro f
    exact invLoop_le_one m r w _
      (runLoop_inv m r w f _ (stopAllAndWaitInit_inv m r w))
  · intro j
    by_cases he : (m.filter (fun i => r 0 i)).isEmpty = true
    · have hst : (stopAllAndWaitInit m r w).1 = ⟨[], [], [], [0]⟩ := by
        unfold stopAllAndWaitInit
        rw [if_pos he]
      rw [hst, runLoop_empty m r _ _ rfl]
      rfl
    · have hst : (stopAllAndWaitInit m r w).1 =
          ⟨qInsert (tickE 100) [toutE w], [], [], []⟩ := by
        unfold stopAllAndWaitInit
        rw [if_neg he]
        rfl
      have hA : InvA w 100 (⟨qInsert (tickE 100) [toutE w], [], [], []⟩ : LoopState) := by
        by_cases hcmp : w ≤ 100
        · have hq2 : qInsert (tickE 100) [toutE w] = [toutE w, tickE 100] := by
            unfold qInsert
            simp only [tickE, toutE]
            rw [if_pos hcmp]
            rfl
          exact ⟨rfl, rfl, rfl, Or.inl ⟨by rw [hq2], by omega⟩⟩
        · have hq2 : qInsert (tickE 100) [toutE w] = [tickE 100, toutE w] := by
            unfold qInsert
            simp only [tickE, toutE]
            rw [if_neg hcmp]
          exact ⟨rfl, rfl, rfl, Or.inr ⟨by rw [hq2], by omega⟩⟩
      have hdone := progressA m r (w / 100) w 100 _ hA
        (by have := stopAllAndWait_fuel w; omega)
      rw [hst, runLoop_add m r (w / 100 + 4) j _,
        runLoop_empty m r j _ hdone.2]
      exact hdone.1

/-- When some manager is still running at every instant before the
timeout, no poll ever completes early, so the loop ends exactly on the
timeout path: the managers still running at the timeout instant are
killed and the single completion happens 500 ms later. -/
theorem progressTimeout (m : List String) (r : Nat → String → Bool) (w : Nat)
    (hR : ∀ u, u < w → m.any (fun i => r u i) = true) :
    ∀ (n t : Nat) (st : LoopState), InvA w t st → w ≤ t + 100 * n →
      runLoop m r (n + 4) st = ⟨[], [1], m.filter (fun i => r w i), [w + 500]⟩ := by
  intro n
  induction n with
  | zero =>
    intro t st hA hb
    rcases hA with ⟨h1, h2, h3, ⟨hq, hub⟩ | ⟨hq, hlt⟩⟩
    · obtain ⟨q, c, ks, cp⟩ := st
      dsimp only at h1 h2 h3 hq
      subst h1
      subst h2
      subst h3
      subst hq
      exact runTimeoutFinal m r w t 0 (by omega)
    · omega
  | succ k ih =>
    intro t st hA hb
    rcases hA with ⟨h1, h2, h3, ⟨hq, hub⟩ | ⟨hq, hlt⟩⟩
    · obtain ⟨q, c, ks, cp⟩ := st
      dsimp only at h1 h2 h3 hq
      subst h1
      subst h2
      subst h3
      subst hq
      exact runTimeoutFinal m r w t (k + 1) (by omega)
    · obtain ⟨q, c, ks, cp⟩ := st
      dsimp only at h1 h2 h3 hq
      subst h1
      subst h2
      subst h3
      subst hq
      have estep : runLoop m r (k + 1 + 4) (⟨[tickE t, toutE w], [], [], []⟩ : LoopState) =
          runLoop m r (k + 4) (loopStep m r (⟨[tickE t, toutE w], [], [], []⟩ : LoopState)) := rfl
      rw [estep]
      have hrun : m.any (fun i => r t i) = true := hR t hlt
      have s : loopStep m r (⟨[tickE t, toutE w], [], [], []⟩ : LoopState) =
          ⟨qInsert (tickE (t + 100)) [toutE w], [], [], []⟩ := by
        simp [loopStep, tickE, hrun]
      rw [s]
      by_cases hcmp : w ≤ t + 100
      · have hq2 : qInsert (tickE (t + 100)) [toutE w] = [toutE w, tickE (t + 100)] := by
          unfold qInsert
          simp only [tickE, toutE]
          rw [if_pos hcmp]
          rfl
        rw [hq2]
        exact ih (t + 100) _ ⟨rfl, rfl, rfl, Or.inl ⟨rfl, by omega⟩⟩ (by omega)
      · have hq2 : qInsert (tickE (t + 100)) [toutE w] = [tickE (t + 100), toutE w] := by
          unfold qInsert
          simp only [tickE, toutE]
          rw [if_neg hcmp]
        rw [hq2]
        exact ih (t + 100) _ ⟨rfl, rfl, rfl, Or.inr ⟨rfl, by omega⟩⟩ (by omega)

/-- Claim C9: when the stopAllAndWait timeout elapses with some manager
still non-terminal at every earlier poll, the timeout callback
force-kills exactly the managers still running at that instant and
onComplete runs after the fixed 500 ms grace period (and only then). -/
theorem stopAllAndWait_timeout_kill_grace (m : List String)
    (r : Nat → String → Bool) (w : Nat)
    (h0 : (m.filter (fun i => r 0 i)).isEmpty = false)
    (hR : ∀ u, u < w → m.any (fun i => r u i) = true) :
    ∀ j,
      (runLoop m r (w / 100 + 4 + j) (stopAllAndWaitInit m r w).1).kills =
        m.filter (fun i => r w i) ∧
      (runLoop m r (w / 100 + 4 + j) (stopAllAndWaitInit m r w).1).completes =
        [w + 500] := by
  intro j
  have hst : (stopAllAndWaitInit m r w).1 =
      ⟨qInsert (tickE 100) [toutE w], [], [], []⟩ := by
    unfold stopAllAndWaitInit
    rw [if_neg (by rw [h0]; intro hc; cases hc)]
    rfl
  have hA : InvA w 100 (⟨qInsert (tickE 100) [toutE w], [], [], []⟩ : LoopState) := by
    by_cases hcmp : w ≤ 100
    · have hq2 : qInsert (tickE 100) [toutE w] = [toutE w, tickE 100] := by
        unfold qInsert
        simp only [tickE, toutE]
        rw [if_pos hcmp]
        rfl
      exact ⟨rfl, rfl, rfl, Or.inl ⟨by rw [hq2], by omega⟩⟩
    · have hq2 : qInsert (tickE 100) [toutE w] = [tickE 100, toutE w] := by
        unfold qInsert
        simp only [tickE, toutE]
        rw [if_neg hcmp]
      exact ⟨rfl, rfl, rfl, Or.inr ⟨by rw [hq2], by omega⟩⟩
  have hfin := progressTimeout m r w hR (w / 100) 100 _ hA
    (by have := stopAllAndWait_fuel w; omega)
  rw [hst, runLoop_add m r (w / 100 + 4) j _, hfin,
    runLoop_empty m r j _ rfl]
  exact ⟨rfl, rfl⟩

theorem stopAllAndWait_timeout_kill_grace_witness :
    ((["a", "b"].filter (fun i => (fun (_ : Nat) (_ : String) => true) 0 i)).isEmpty = false) ∧
    (runLoop ["a", "b"] (fun _ _ => true) (200 / 100 + 4 + 0) (stopAllAndWaitInit ["a", "b"] (fun _ _ => true) 200).1).kills =
      ["a", "b"].filter (fun i => (fun (_ : Nat) (_ : String) => true) 200 i) ∧
    (runLoop ["a", "b"] (fun _ _ => true) (200 / 100 + 4 + 0) (stopAllAndWaitInit ["a", "b"] (fun _ _ => true) 200).1).completes =
      [200 + 500] :=
  have h := stopAllAndWait_timeout_kill_grace ["a", "b"] (fun _ _ => true) 200
    (by decide) (fun u hu => rfl) 0
  ⟨by decide, h.1, h.2⟩

end Dpr
